import Mathlib

/-!
# Verification development for the build execution engine (atc)

Shallow embedding of

* `exec/hooked_compose_step.go`  (the hooked composer),
* `db/sqldb_eventsource.go`      (the build event source), and
* `builder/builder.go`           (input resolution and build dispatch),

followed by the theorems that settle the specification claims about them.
-/

namespace Atc

/-! ## Part 1. exec/hooked_compose_step.go -/

namespace Exec

/-- Go `error` values seen by the composer: an error produced by a step, or the
aggregate built by `multierror.Append`. -/
inductive GoError where
  | errorString (msg : String)
  | multi (errs : List GoError)

/-- The five children of a hooked composer. -/
inductive Role where
  | first
  | ensure
  | failure
  | success
  | next
  deriving DecidableEq, Repr

/-- Observable behaviour of a `Step` instance, as the composer uses it.

* `run`           : the error returned by `Run` (the value received from `process.Wait()`),
                    `none` for nil;
* `resultOk`      : the boolean returned by `Result(&x)` for `x : Success`;
* `resultSuccess` : the value found in `x` afterwards (`false`, the zero value, when the
                    step did not write it);
* `release`       : the text `err.Error()` of the error returned by `Release`, `none` for nil. -/
structure Step where
  run : Option GoError
  resultOk : Bool
  resultSuccess : Bool
  release : Option String

/-- A `StepFactory`: `Using(prev, repo)` binds a step to its predecessor. -/
abbrev StepFactory := Step → Step

/-- Modelled from the spec: `NoopStep` is declared outside the files under `src/`.
The spec calls it a no-op: running it does nothing and returns nil, it exposes no
result, and releasing it returns nil. -/
def NoopStep : Step :=
  { run := none, resultOk := false, resultSuccess := false, release := none }

/-- The struct `hookedCompose`; a nil `Step` field is `none`. (`repo` is only passed on
to the factories and is left out.) -/
structure hookedCompose where
  step : StepFactory
  failure : StepFactory
  success : StepFactory
  ensure : StepFactory
  next : StepFactory
  prev : Step
  firstStep : Option Step
  failureStep : Option Step
  successStep : Option Step
  ensureStep : Option Step
  nextStep : Option Step

/-- The constructor `HookedCompose` followed by `Using(prev, repo)`: five factories, no child
instantiated yet. -/
def HookedCompose (step next failure success ensure : StepFactory) (prev : Step) :
    hookedCompose :=
  { step := step, next := next, failure := failure, success := success, ensure := ensure,
    prev := prev,
    firstStep := none, failureStep := none, successStep := none, ensureStep := none,
    nextStep := none }

/-- What happens around one `Run` that the composer does not decide itself:
whether a signal was forwarded to a child while it ran, and in which order the
concurrently running hooks deliver their errors on `hookError`
(`swap = true`: the hook appended last delivers first). -/
structure Sched where
  signalled : Role → Bool
  swap : Bool

/-- Calls made by `Run`, in program order (the hooks run concurrently; they are listed in
the order of the `hooks` slice): a factory's `Using`, the `Run` of the step a factory
produced, and the `Run` of a `NoopStep`. -/
inductive Event where
  | using (r : Role)
  | run (r : Role)
  | runNoop
  deriving DecidableEq, Repr

/-- The method `hookedCompose.backgroundProcess`: wait for the process, forwarding signals; the wait
error is returned when the process was signalled or failed, nil otherwise. -/
def backgroundProcess (waitErr : Option GoError) (signalled : Bool) : Option GoError :=
  if signalled || waitErr.isSome then waitErr else none

/-- The errors an error stands for when `multierror.Append` adds it to an aggregate: the
member errors of a `*multierror.Error`, the error itself otherwise. -/
def GoError.flat : GoError → List GoError
  | GoError.multi errs => errs
  | e => [e]

/-- The call `multierror.Append(errors, err)` of the go-multierror library: `err` is added at
the end of the aggregate `errors`, which is created when `errors` is nil (or wrapped first
when it is no aggregate); an `err` that is itself an aggregate is flattened, its member errors
being added in its place. -/
def multierrorAppend (errors : Option GoError) (err : GoError) : GoError :=
  match errors with
  | none => GoError.multi err.flat
  | some (GoError.multi es) => GoError.multi (es ++ err.flat)
  | some e => GoError.multi ([e] ++ err.flat)

/-- Lines 64-75 of `Run`: instantiate `ensure`, and `success` or `failure` when the first step
returned no error. Returns the updated composer and the `hooks` slice. -/
def scheduleHooks (hc : hookedCompose) (firstStep : Step) (firstStepError : Option GoError)
    (succeeded : Bool) : hookedCompose × List (Role × Step) :=
  let ensureStep := hc.ensure firstStep
  let hc := { hc with ensureStep := some ensureStep }
  let hooks := [(Role.ensure, ensureStep)]
  if firstStepError.isNone then
    if succeeded then
      let successStep := hc.success firstStep
      ({ hc with successStep := some successStep }, hooks ++ [(Role.success, successStep)])
    else
      let failureStep := hc.failure firstStep
      ({ hc with failureStep := some failureStep }, hooks ++ [(Role.failure, failureStep)])
  else
    (hc, hooks)

/-- Lines 77-96 of `Run`: every hook runs in its own goroutine through `backgroundProcess`;
the errors are received one by one from `hookError` and the non-nil ones appended. -/
def collectHookErrors (sched : Sched) (hooks : List (Role × Step)) : Option GoError :=
  let arrival := if sched.swap then hooks.reverse else hooks
  arrival.foldl
    (fun errors hook =>
      match backgroundProcess hook.2.run (sched.signalled hook.1) with
      | some err => some (multierrorAppend errors err)
      | none => errors)
    none

/-- Lines 98-110 of `Run`: a hook that does not expose `Success`, or whose `Success` is false,
clears `allHooksSuccessful`. -/
def allHooksSuccessful (hooks : List (Role × Step)) : Bool :=
  hooks.foldl
    (fun acc hook =>
      let acc := if !hook.2.resultOk then false else acc
      if !hook.2.resultSuccess then false else acc)
    true

/-- Result of one call of `Run`: the composer afterwards, the returned error, and the
calls that were made. -/
structure RunOutcome where
  hc : hookedCompose
  err : Option GoError
  trace : List Event

/-- The method `hookedCompose.Run`; `sched` supplies what the signals and the goroutine
scheduling decide. -/
def hookedCompose.Run (hc : hookedCompose) (sched : Sched) : RunOutcome :=
  let firstStep := hc.step hc.prev
  let hc := { hc with firstStep := some firstStep }
  let firstStepError := backgroundProcess firstStep.run (sched.signalled Role.first)
  let trace := [Event.using Role.first, Event.run Role.first]
  if !firstStep.resultOk then
    -- the step cannot respond to success: run a noop and return its result
    { hc := hc, err := NoopStep.run, trace := trace ++ [Event.runNoop] }
  else
    let succeeded := firstStep.resultSuccess
    let (hc, hooks) := scheduleHooks hc firstStep firstStepError succeeded
    let trace := trace ++ hooks.map (fun h => Event.using h.1)
      ++ hooks.map (fun h => Event.run h.1)
    let errors := collectHookErrors sched hooks
    let allOk := allHooksSuccessful hooks
    let errors :=
      match firstStepError with
      | some e => some (multierrorAppend errors e)
      | none => errors
    match errors with
    | some e => { hc := hc, err := some e, trace := trace }
    | none =>
      if succeeded && allOk then
        let nextStep := hc.next firstStep
        { hc := { hc with nextStep := some nextStep }, err := nextStep.run,
          trace := trace ++ [Event.using Role.next, Event.run Role.next] }
      else
        { hc := { hc with nextStep := some NoopStep }, err := NoopStep.run,
          trace := trace ++ [Event.runNoop] }

/-- The method `hookedCompose.Result` for `x : Success`: delegates to `hc.nextStep`; calling a method
on a nil `Step` panics, which is `none` here. Otherwise the pair (returned boolean, value
left in `x`). -/
def hookedCompose.Result (hc : hookedCompose) : Option (Bool × Bool) :=
  match hc.nextStep with
  | none => none
  | some s => some (s.resultOk, s.resultSuccess)

/-- One child in `Release`: when instantiated, its `Release` is called and a non-nil error
is recorded with the role text in front. -/
def releaseChild (role : Role) (label : String) (child : Option Step)
    (acc : List Role × List String) : List Role × List String :=
  match child with
  | none => acc
  | some s =>
    match s.release with
    | some msg => (acc.1 ++ [role], acc.2 ++ [label ++ msg])
    | none => (acc.1 ++ [role], acc.2)

/-- The method `hookedCompose.Release`: the children whose `Release` was called, in call order, and the
text of the returned error (`none` for nil). -/
def hookedCompose.Release (hc : hookedCompose) : List Role × Option String :=
  let acc : List Role × List String := ([], [])
  let acc := releaseChild Role.first "first step: " hc.firstStep acc
  let acc := releaseChild Role.ensure "ensure step: " hc.ensureStep acc
  let acc := releaseChild Role.failure "failure step: " hc.failureStep acc
  let acc := releaseChild Role.success "success step: " hc.successStep acc
  let acc := releaseChild Role.next "next step: " hc.nextStep acc
  if acc.2.length > 0 then
    (acc.1, some ("sources failed to release:\n" ++ "\n".intercalate acc.2))
  else
    (acc.1, none)

/-- The child stored in the composer for a role (nil is `none`). -/
def hookedCompose.child (hc : hookedCompose) : Role → Option Step
  | Role.first => hc.firstStep
  | Role.ensure => hc.ensureStep
  | Role.failure => hc.failureStep
  | Role.success => hc.successStep
  | Role.next => hc.nextStep

/-- The text `Release` puts in front of a child's error message. -/
def Role.label : Role → String
  | Role.first => "first step: "
  | Role.ensure => "ensure step: "
  | Role.failure => "failure step: "
  | Role.success => "success step: "
  | Role.next => "next step: "

/-- The order in which `Release` visits the children. -/
def releaseOrder : List Role :=
  [Role.first, Role.ensure, Role.failure, Role.success, Role.next]

/-- The `hooks` slice of a run whose first step exposes `Success`: the scheduled hooks. -/
def hookedCompose.hooks (hc : hookedCompose) : List (Role × Step) :=
  (scheduleHooks { hc with firstStep := some (hc.step hc.prev) } (hc.step hc.prev)
    (hc.step hc.prev).run (hc.step hc.prev).resultSuccess).2

/-- The non-nil run errors of a run, in the order in which `Run` appends them: those of the
scheduled hooks as they arrive, then the first step's. -/
def hookedCompose.runErrors (hc : hookedCompose) (sched : Sched) : List GoError :=
  (if sched.swap then hc.hooks.reverse else hc.hooks).filterMap (fun h => h.2.run)
    ++ (hc.step hc.prev).run.toList

/-- The messages `Release` collects: for every instantiated child whose release fails, in
the order of `releaseOrder`, the role text followed by the error's message. -/
def hookedCompose.releaseMessages (hc : hookedCompose) : List String :=
  releaseOrder.filterMap
    (fun r => (hc.child r).bind (fun s => s.release.map (fun m => r.label ++ m)))

/-- The error value `multierror.Append` builds from the given non-nil errors, added one
after the other: nil when there is none, otherwise the multierror listing them, the members
of an aggregate standing in for it. -/
def aggregate : List GoError → Option GoError
  | [] => none
  | e :: es => some (GoError.multi ((e :: es).flatMap GoError.flat))

/-! ### Concrete composers used below -/

/-- A step with the given run error and `Success` result, whose release succeeds. -/
def stepWith (run : Option GoError) (ok succ : Bool) : Step :=
  { run := run, resultOk := ok, resultSuccess := succ, release := none }

/-- A step that runs without error and reports success. -/
def okStep : Step := stepWith none true true

/-- No signal is delivered; hook errors arrive in slice order. -/
def quiet : Sched := { signalled := fun _ => false, swap := false }

def E1 : GoError := GoError.errorString "E1"

def E2 : GoError := GoError.errorString "E2"

/-- The first step runs without error but does not expose `Success`. -/
def hcNoSuccess : hookedCompose :=
  HookedCompose (fun _ => stepWith none false false) (fun _ => okStep) (fun _ => okStep)
    (fun _ => okStep) (fun _ => okStep) okStep

/-- The first step fails with `E1` and does not expose `Success`. -/
def hcErrNoSuccess : hookedCompose :=
  HookedCompose (fun _ => stepWith (some E1) false false) (fun _ => okStep) (fun _ => okStep)
    (fun _ => okStep) (fun _ => okStep) okStep

/-- The first step succeeds; the ensure hook returns `E2` although its `Success` is true. -/
def hcHookError : hookedCompose :=
  HookedCompose (fun _ => okStep) (fun _ => okStep) (fun _ => okStep)
    (fun _ => okStep) (fun _ => stepWith (some E2) true true) okStep

/-- Scenario S5: the first step returns `E1` (and exposes `Success`), the ensure hook
returns `E2`. -/
def hcS5 : hookedCompose :=
  HookedCompose (fun _ => stepWith (some E1) true false) (fun _ => okStep) (fun _ => okStep)
    (fun _ => okStep) (fun _ => stepWith (some E2) true false) okStep

def E3 : GoError := GoError.errorString "E3"

/-- Every child runs without error and reports success, but the next step (a composer of
its own, say) returns the aggregate of `E1` and `E2`. -/
def hcNextAggregate : hookedCompose :=
  HookedCompose (fun _ => okStep) (fun _ => stepWith (some (GoError.multi [E1, E2])) true true)
    (fun _ => okStep) (fun _ => okStep) (fun _ => okStep) okStep

/-- The first step (a composer of its own, say) returns the aggregate of `E1` and `E2` and
exposes `Success`; the ensure hook returns `E3`. -/
def hcNested : hookedCompose :=
  HookedCompose (fun _ => stepWith (some (GoError.multi [E1, E2])) true false)
    (fun _ => okStep) (fun _ => okStep) (fun _ => okStep)
    (fun _ => stepWith (some E3) true false) okStep

/-- Every child is instantiated; the ensure and next releases fail. -/
def hcReleaseAll : hookedCompose :=
  { hcNoSuccess with
    firstStep := some okStep
    ensureStep := some { okStep with release := some "e" }
    failureStep := none
    successStep := some okStep
    nextStep := some { okStep with release := some "n" } }

end Exec

/-! ## Part 2. db/sqldb_eventsource.go -/

namespace Db

/-- The errors a source can hold in `source.err`: the two sentinel errors of package `db`
and an error returned by the database connection (`QueryRow`, `Query` or `Scan`). -/
inductive SourceError where
  | ErrBuildEventStreamClosed
  | ErrEndOfBuildEventStream
  | dbError (msg : String)
  deriving DecidableEq, Repr

/-- A row of the build events table. -/
structure Row where
  build_id : Nat
  event_id : Nat
  type : String
  version : String
  payload : String
  deriving DecidableEq, Repr

/-- The struct `event.Envelope`; `Data` is a pointer, nil in the zero value. -/
structure Envelope where
  Data : Option String
  Event : String
  Version : String
  deriving DecidableEq, Repr

/-- The zero value `event.Envelope{}`. -/
def Envelope.zero : Envelope := { Data := none, Event := "", Version := "" }

/-- Lines 134-140: the envelope built from a scanned row. -/
def Row.envelope (r : Row) : Envelope :=
  { Data := some r.payload, Event := r.type, Version := r.version }

/-- The batch query of lines 103-110:
`WHERE build_id = $1 ORDER BY event_id ASC OFFSET $2 LIMIT $3`. -/
def queryEvents (table : List Row) (buildID cursor batchSize : Nat) : List Row :=
  (((table.filter (fun r => r.build_id == buildID)).insertionSort
      (fun a b => a.event_id ≤ b.event_id)).drop cursor).take batchSize

/-- The mutable part of `sqldbBuildEventSource`.

* `events`       : the envelopes sent on the channel `events` and not yet received, oldest
                   first. A send blocks while the channel holds `eventsCap` envelopes and goes
                   through once the consumer has received one; this does not change the order
                   of what is sent or received, and the sends of the producer are listed
                   ahead of the receives of the consumer;
* `eventsCap`    : its capacity, which is also the batch size;
* `eventsClosed` : whether `events` has been closed;
* `stopClosed`   : whether the channel `stop` has been closed;
* `err`          : the field `err` (`none` is nil);
* `wg`           : the counter of the wait group. -/
structure Source where
  buildID : Nat
  events : List Envelope
  eventsCap : Nat
  eventsClosed : Bool
  stopClosed : Bool
  err : Option SourceError
  wg : Nat
  deriving DecidableEq, Repr

/-- What one pass of the loop of `collectEvents` meets outside the source, in program order:

* `stopAtTop`  : `stop` is closed when the select of line 82 runs;
* `completed`  : the outcome of the `completed` query (an error, or the flag);
* `table`      : the outcome of the batch query (an error, or the events table at that moment);
* `nextErr j`  : `rows.Next()` returns false when asked for the j-th row of the batch because
                 of an error (the one `rows.Err()` would report; `collectEvents` does not
                 call it);
* `scanErr j`  : the error of `rows.Scan` on the j-th row of the batch, if it fails;
* `stopAtSend j` : the select of line 142 takes the `stop` case for the j-th row;
* `notified`   : the select of line 164 receives a notification (`true`) or `stop` (`false`). -/
structure Poll where
  stopAtTop : Bool
  completed : Except String Bool
  table : Except String (List Row)
  nextErr : Nat → Bool
  scanErr : Nat → Option String
  stopAtSend : Nat → Bool
  notified : Bool

/-- The three statements every exit of `collectEvents` executes:
`source.err = e`, `close(source.events)`, `return` (which runs the deferred `wg.Done()`). -/
def Source.terminate (src : Source) (e : SourceError) : Source :=
  let src := { src with err := some e }
  let src := { src with eventsClosed := true }
  { src with wg := src.wg - 1 }

/-- State of `collectEvents` after the loop over the rows (lines 119-151); `returned` tells
that the function returned from inside the loop. -/
structure RowsResult where
  src : Source
  cursor : Nat
  rowsReturned : Nat
  returned : Bool

/-- The loop `for rows.Next()` of lines 119-151 over the rows of one batch. The loop ends
when `rows.Next()` returns false, at the end of the rows or on an error. A send on
`events` blocks while the channel is full; it is modelled at the moment it goes through. -/
def sendRows (p : Poll) : Source → Nat → Nat → List Row → RowsResult
  | src, cursor, rowsReturned, [] =>
    { src := src, cursor := cursor, rowsReturned := rowsReturned, returned := false }
  | src, cursor, rowsReturned, r :: rest =>
    if p.nextErr (rowsReturned + 1) then
      { src := src, cursor := cursor, rowsReturned := rowsReturned, returned := false }
    else
      let rowsReturned := rowsReturned + 1
      let cursor := cursor + 1
      match p.scanErr rowsReturned with
      | some e =>
        { src := src.terminate (SourceError.dbError e), cursor := cursor,
          rowsReturned := rowsReturned, returned := true }
      | none =>
        if p.stopAtSend rowsReturned then
          { src := ({ src with stopClosed := true }).terminate
              SourceError.ErrBuildEventStreamClosed,
            cursor := cursor, rowsReturned := rowsReturned, returned := true }
        else
          sendRows p { src with events := src.events ++ [r.envelope] } cursor rowsReturned rest

/-- The method `sqldbBuildEventSource.collectEvents(cursor)`: one element of the list is
consumed by each pass of the loop. When the list runs out the goroutine has not returned yet
(`wg` is still 1 in the result). The `uint` cursor counts rows of the table; it is a natural
number here. -/
def collectEvents (src : Source) (cursor : Nat) : List Poll → Source
  | [] => src
  | p :: polls =>
    let batchSize := src.eventsCap
    if p.stopAtTop then
      ({ src with stopClosed := true }).terminate SourceError.ErrBuildEventStreamClosed
    else
      match p.completed with
      | Except.error e => src.terminate (SourceError.dbError e)
      | Except.ok completed =>
        match p.table with
        | Except.error e => src.terminate (SourceError.dbError e)
        | Except.ok table =>
          let res := sendRows p src cursor 0 (queryEvents table src.buildID cursor batchSize)
          if res.returned then
            res.src
          else if res.rowsReturned == batchSize then
            -- still more events
            collectEvents res.src res.cursor polls
          else if completed then
            res.src.terminate SourceError.ErrEndOfBuildEventStream
          else if p.notified then
            collectEvents res.src res.cursor polls
          else
            ({ res.src with stopClosed := true }).terminate
              SourceError.ErrBuildEventStreamClosed

/-- The constructor `newSQLDBBuildEventSource(buildID, table, conn, notifier, from)`, with
`start` for `from`: the source, with the goroutine `collectEvents(from)` having run through
the passes described by `polls` (which stand for what `conn` and `notifier` answer). -/
def newSQLDBBuildEventSource (buildID : Nat) (start : Nat) (polls : List Poll) : Source :=
  let source : Source :=
    { buildID := buildID, events := [], eventsCap := 2000, eventsClosed := false,
      stopClosed := false, err := none, wg := 0 }
  let source := { source with wg := source.wg + 1 }
  collectEvents source start polls

/-- The method `sqldbBuildEventSource.Next`: the returned pair and the source afterwards; `none` when the
receive blocks (nothing buffered and `events` not closed). -/
def Source.Next (source : Source) : Option ((Envelope × Option SourceError) × Source) :=
  match source.events with
  | e :: rest => some ((e, none), { source with events := rest })
  | [] => if source.eventsClosed then some ((Envelope.zero, source.err), source) else none

/-- The method `sqldbBuildEventSource.Close`: what it returns and the source afterwards.
The first component is `none` when the call does not return because `wg.Wait()` blocks
(`collectEvents` has not returned); otherwise it is the returned error, `notifierClose` being
what `notifier.Close()` returns. -/
def Source.Close (source : Source) (notifierClose : Option String) :
    Option (Option String) × Source :=
  if source.stopClosed then
    (some none, source)
  else
    let source := { source with stopClosed := true }
    if source.wg == 0 then (some notifierClose, source) else (none, source)

/-- The results of `n` successive calls of `Next` (cut short at a call that blocks). -/
def Source.nextN : Nat → Source → List (Envelope × Option SourceError)
  | 0, _ => []
  | n + 1, source =>
    match source.Next with
    | none => []
    | some (r, source) => r :: Source.nextN n source

/-- The events of a build in `event_id` order. -/
def buildEvents (table : List Row) (buildID : Nat) : List Row :=
  (table.filter (fun r => r.build_id == buildID)).insertionSort
    (fun a b => a.event_id ≤ b.event_id)

/-- A pass of the loop over a completed build whose events are `table`: no database error,
no close, nothing more is written. -/
def Poll.completedBuild (table : List Row) : Poll :=
  { stopAtTop := false, completed := Except.ok true, table := Except.ok table,
    nextErr := fun _ => false, scanErr := fun _ => none, stopAtSend := fun _ => false,
    notified := false }

/-- The events of a build whose `event_id` is greater than `k`, in `event_id` order. -/
def eventsAfter (table : List Row) (buildID k : Nat) : List Row :=
  (buildEvents table buildID).filter (fun r => decide (k < r.event_id))

/-- A call made by the consumer of a source. -/
inductive ConsumerCall where
  | next
  | close (notifierClose : Option String)

/-- The source after a consumer call; a `Next` that blocks leaves it as it is. -/
def Source.call (source : Source) : ConsumerCall → Source
  | ConsumerCall.next =>
    match source.Next with
    | some (_, source) => source
    | none => source
  | ConsumerCall.close notifierClose => (source.Close notifierClose).2

/-- The source after a sequence of consumer calls. -/
def Source.calls (source : Source) (cs : List ConsumerCall) : Source :=
  cs.foldl Source.call source

/-- The goroutine `collectEvents` has not returned: the wait group counts it, `events` is
open and `err` is nil. -/
def Source.running (source : Source) : Prop :=
  source.wg = 1 ∧ source.eventsClosed = false ∧ source.err = none

/-- The goroutine `collectEvents` has returned: the wait group is at 0, `events` is closed
and `err` holds an error. -/
def Source.finished (source : Source) : Prop :=
  source.wg = 0 ∧ source.eventsClosed = true ∧ source.err ≠ none

/-! ### Concrete tables used below -/

/-- Scenario S1: events 1, 2, 3 of build 42 (stored out of order, next to a row of another
build). -/
def tableS1 : List Row :=
  [{ build_id := 42, event_id := 3, type := "log", version := "1.0", payload := "c" },
   { build_id := 7, event_id := 1, type := "log", version := "1.0", payload := "x" },
   { build_id := 42, event_id := 1, type := "log", version := "1.0", payload := "a" },
   { build_id := 42, event_id := 2, type := "log", version := "1.0", payload := "b" }]

/-- Events of build 42 with the strictly increasing, non-contiguous ids 2, 4, 6. -/
def tableGaps : List Row :=
  [{ build_id := 42, event_id := 2, type := "log", version := "1.0", payload := "a" },
   { build_id := 42, event_id := 4, type := "log", version := "1.0", payload := "b" },
   { build_id := 42, event_id := 6, type := "log", version := "1.0", payload := "c" }]

/-- A pass over a build that is not completed: the batch is read and sent, and the select of
line 164 then takes the `stop` case (the consumer has called `Close`). -/
def Poll.closedWhileWaiting (table : List Row) : Poll :=
  { stopAtTop := false, completed := Except.ok false, table := Except.ok table,
    nextErr := fun _ => false, scanErr := fun _ => none, stopAtSend := fun _ => false,
    notified := false }

/-- A pass over a completed build whose events are `table`, in which the iteration over the
rows of the batch stops on an error after `n` rows: `rows.Next()` returns false when asked
for the next one. -/
def Poll.rowsCutShort (table : List Row) (n : Nat) : Poll :=
  { stopAtTop := false, completed := Except.ok true, table := Except.ok table,
    nextErr := fun j => j == n + 1, scanErr := fun _ => none, stopAtSend := fun _ => false,
    notified := false }

/-- Scenario S1 before event 3 is written. -/
def tableS1Early : List Row :=
  [{ build_id := 7, event_id := 1, type := "log", version := "1.0", payload := "x" },
   { build_id := 42, event_id := 1, type := "log", version := "1.0", payload := "a" },
   { build_id := 42, event_id := 2, type := "log", version := "1.0", payload := "b" }]

/-- A pass over a build that is not completed yet and holds `table`; a notification then
wakes the producer. -/
def Poll.live (table : List Row) : Poll :=
  { stopAtTop := false, completed := Except.ok false, table := Except.ok table,
    nextErr := fun _ => false, scanErr := fun _ => none, stopAtSend := fun _ => false,
    notified := true }

/-- The database at one moment: the events table and the column `builds.completed`, by
build id. -/
structure DbState where
  table : List Row
  completed : Nat → Bool

/-- The pass `p` ran its `completed` query (line 92) against the state `first` of the database
and its batch query (line 103), which comes later in the pass, against the state `second`. A
query that failed read nothing. -/
def Poll.reads (p : Poll) (buildID : Nat) (first second : DbState) : Bool :=
  (match p.completed with
    | Except.ok c => c == first.completed buildID
    | Except.error _ => true) &&
  (match p.table with
    | Except.ok t => t == second.table
    | Except.error _ => true)

/-- Scenario S1 opened at 2, after the consumer has received event c. -/
def drainedS1 : Source :=
  (newSQLDBBuildEventSource 42 2 [Poll.completedBuild tableS1]).calls [ConsumerCall.next]

end Db

/-! ## Part 3. builder/builder.go -/

namespace Builder

/-- The type `config.Source`, an opaque description of a version of a resource. -/
abbrev Source := String

/-- Modelled from the spec: the struct `config.Resource` is declared outside the files under
`src/`. A resource has a name, a type tag and a `source`. -/
structure Resource where
  Name : String
  Type_ : String
  Source : Source
  deriving DecidableEq, Repr

/-- Modelled from the spec: the type `config.Resources` is declared outside the files under
`src/`. The builder converts a slice of resources into it and uses it as a map from names
to resources. -/
abbrev Resources := List Resource

/-- Modelled from the spec: `Resources.Lookup` is declared outside the files under `src/`.
It returns the resource of the map with the given name, if there is one. -/
def Resources.Lookup (resources : Resources) (name : String) : Option Resource :=
  resources.find? (fun r => r.Name == name)

/-- Modelled from the spec: `Resources.UpdateResource` is declared outside the files under
`src/`. It returns the map in which the resource is bound under its name, the other names
being left as they are. -/
def Resources.UpdateResource (resources : Resources) (resource : Resource) : Resources :=
  if (resources.Lookup resource.Name).isSome then
    resources.map (fun r => if r.Name == resource.Name then resource else r)
  else
    resources ++ [resource]

/-- Modelled from the spec: the struct `config.Input` is declared outside the files under
`src/`. An input names a resource and has an optional `passed` constraint (`none` is nil). -/
structure Input where
  Resource : String
  Passed : Option (List String)
  deriving DecidableEq, Repr

/-- Modelled from the spec: the struct `config.Output` is declared outside the files under
`src/`. An output names a resource and has parameters. -/
structure Output where
  Resource : String
  Params : String
  deriving DecidableEq, Repr

/-- Modelled from the spec: the struct `config.Job` is declared outside the files under
`src/`. -/
structure Job where
  Name : String
  Privileged : Bool
  BuildConfigPath : String
  Inputs : List Input
  Outputs : List Output
  deriving DecidableEq, Repr

/-- Modelled from the spec: the struct `builds.Build` is declared outside the files under
`src/`; the builder only reads its `ID`. -/
structure Build where
  ID : Nat
  deriving DecidableEq, Repr

/-- The zero value `builds.Build{}`. -/
def Build.zero : Build := { ID := 0 }

/-- The struct `ProleBuilds.Input` of the executor's API. -/
structure ProleInput where
  Type_ : String
  Source : Source
  DestinationPath : String
  ConfigPath : String
  deriving DecidableEq, Repr

/-- The struct `ProleBuilds.Output` of the executor's API. -/
structure ProleOutput where
  Type_ : String
  Params : String
  SourcePath : String
  deriving DecidableEq, Repr

/-- The errors the builder returns: the two `fmt.Errorf` errors with their arguments,
`ErrBadResponse`, and an error handed on from the storage, the encoder, the request
generator or the HTTP client. -/
inductive BuildError where
  | unknownResource (resource : String)
  | unsatisfiedInput (resource : String) (passed : List String)
  | ErrBadResponse
  | other (msg : String)
  deriving DecidableEq, Repr

/-- What the builder's collaborators answer: the storage (`db.DB`), the two request
generators, the JSON encoder and the executor (`http.DefaultClient.Do`, an error or the
status code of the response). -/
structure World where
  GetCommonOutputs : List String → String → Except String (List Source)
  CreateBuild : String → Except String Build
  completeRequest : Build → Except String String
  logsRequest : Build → Except String String
  encode : Option String
  executeRequest : Option String
  response : Except String Nat

/-- The struct `builder`: the base resources and the collaborators. -/
structure builder where
  resources : Resources
  world : World

/-- Calls the builder makes on the storage and the executor, in program order. -/
inductive Effect where
  | getCommonOutputs (passed : List String) (resource : String)
  | createBuild (job : String)
  | execute (inputs : List ProleInput) (outputs : List ProleOutput)
  deriving DecidableEq, Repr

/-- The loop of `builder.computeResources` (lines 154-182) over the remaining inputs, with the
current value of `resources` and the calls made so far. -/
def computeResourcesLoop (b : builder) (resourceOverrides : Resources) :
    List Input → Resources → List Effect → Except BuildError Resources × List Effect
  | [], resources, log => (Except.ok resources, log)
  | input :: rest, resources, log =>
    match resourceOverrides.Lookup input.Resource with
    | some resource =>
      computeResourcesLoop b resourceOverrides rest (resources.UpdateResource resource) log
    | none =>
      match b.resources.Lookup input.Resource with
      | none => (Except.error (BuildError.unknownResource input.Resource), log)
      | some resource =>
        match input.Passed with
        | none => computeResourcesLoop b resourceOverrides rest resources log
        | some passed =>
          let log := log ++ [Effect.getCommonOutputs passed input.Resource]
          match b.world.GetCommonOutputs passed input.Resource with
          | Except.error e => (Except.error (BuildError.other e), log)
          | Except.ok outputs =>
            if h : outputs.length = 0 then
              (Except.error (BuildError.unsatisfiedInput input.Resource passed), log)
            else
              let resource :=
                { resource with
                  Source := outputs.get ⟨outputs.length - 1, Nat.sub_lt (Nat.pos_of_ne_zero h)
                    Nat.one_pos⟩ }
              computeResourcesLoop b resourceOverrides rest
                (resources.UpdateResource resource) log

/-- The method `builder.computeResources`: the resolved resources or the error, and the
calls made on the storage. -/
def builder.computeResources (b : builder) (job : Job) (resourceOverrides : Resources) :
    Except BuildError Resources × List Effect :=
  computeResourcesLoop b resourceOverrides job.Inputs b.resources []

/-- The function `filepath.HasPrefix(p, prefix)` of the Go library: a plain string prefix
test, which does not look at path boundaries. -/
def filepathHasPrefix (p pre : String) : Bool :=
  pre.data.isPrefixOf p.data

/-- The method `builder.inputFor`; `none` is the run-time panic of a slice expression whose
start lies beyond the end of the string. Strings are taken as sequences of characters,
which is Go's indexing for ASCII text. -/
def builder.inputFor (job : Job) (resource : Resource) : Option ProleInput :=
  let proleInput : ProleInput :=
    { Type_ := resource.Type_, Source := resource.Source, DestinationPath := resource.Name,
      ConfigPath := "" }
  if filepathHasPrefix job.BuildConfigPath resource.Name then
    if resource.Name.length + 1 ≤ job.BuildConfigPath.length then
      some { proleInput with
        ConfigPath := String.mk (job.BuildConfigPath.data.drop (resource.Name.length + 1)) }
    else
      none
  else
    some proleInput

/-- Outcome of a function that returns a value or an error, or panics. -/
inductive Res (α : Type) where
  | ok (a : α)
  | error (e : BuildError)
  | panic
  deriving Repr

/-- The first loop of `builder.computeInputs` (lines 191-200), over the job's inputs; it
returns the executor inputs and the names added. -/
def computeInputsOfInputs (job : Job) (resources : Resources) :
    List Input → List ProleInput → List String → Res (List ProleInput × List String)
  | [], proleInputs, added => Res.ok (proleInputs, added)
  | input :: rest, proleInputs, added =>
    match resources.Lookup input.Resource with
    | none => Res.error (BuildError.unknownResource input.Resource)
    | some resource =>
      match builder.inputFor job resource with
      | none => Res.panic
      | some proleInput =>
        computeInputsOfInputs job resources rest (proleInputs ++ [proleInput])
          (added ++ [input.Resource])

/-- The second loop of `builder.computeInputs` (lines 202-213), over the job's outputs. -/
def computeInputsOfOutputs (job : Job) (resources : Resources) (added : List String) :
    List Output → List ProleInput → Res (List ProleInput)
  | [], proleInputs => Res.ok proleInputs
  | output :: rest, proleInputs =>
    if added.contains output.Resource then
      computeInputsOfOutputs job resources added rest proleInputs
    else
      match resources.Lookup output.Resource with
      | none => Res.error (BuildError.unknownResource output.Resource)
      | some resource =>
        match builder.inputFor job resource with
        | none => Res.panic
        | some proleInput =>
          computeInputsOfOutputs job resources added rest (proleInputs ++ [proleInput])

/-- The method `builder.computeInputs`. -/
def builder.computeInputs (job : Job) (resources : Resources) : Res (List ProleInput) :=
  match computeInputsOfInputs job resources job.Inputs [] [] with
  | Res.ok (proleInputs, added) =>
    computeInputsOfOutputs job resources added job.Outputs proleInputs
  | Res.error e => Res.error e
  | Res.panic => Res.panic

/-- The loop of `builder.computeOutputs` over the job's outputs. -/
def computeOutputsLoop (resources : Resources) :
    List Output → List ProleOutput → Except BuildError (List ProleOutput)
  | [], proleOutputs => Except.ok proleOutputs
  | output :: rest, proleOutputs =>
    match resources.Lookup output.Resource with
    | none => Except.error (BuildError.unknownResource output.Resource)
    | some resource =>
      let proleOutput : ProleOutput :=
        { Type_ := resource.Type_, Params := output.Params, SourcePath := resource.Name }
      computeOutputsLoop resources rest (proleOutputs ++ [proleOutput])

/-- The method `builder.computeOutputs`. -/
def builder.computeOutputs (job : Job) (resources : Resources) :
    Except BuildError (List ProleOutput) :=
  computeOutputsLoop resources job.Outputs []

/-- What `builder.Build` comes to: it returns a build and an error (`none` is nil), or it
panics. -/
inductive BuildResult where
  | returned (build : Build) (err : Option BuildError)
  | panic
  deriving DecidableEq, Repr

/-- The method `builder.Build`: its outcome and the calls made on the storage and the
executor. -/
def builder.Build (b : builder) (job : Job) (resourceOverrides : List Resource) :
    BuildResult × List Effect :=
  match b.computeResources job resourceOverrides with
  | (Except.error err, log) => (BuildResult.returned Build.zero (some err), log)
  | (Except.ok resources, log) =>
    match builder.computeInputs job resources with
    | Res.panic => (BuildResult.panic, log)
    | Res.error err => (BuildResult.returned Build.zero (some err), log)
    | Res.ok inputs =>
      match builder.computeOutputs job resources with
      | Except.error err => (BuildResult.returned Build.zero (some err), log)
      | Except.ok outputs =>
        let log := log ++ [Effect.createBuild job.Name]
        match b.world.CreateBuild job.Name with
        | Except.error e => (BuildResult.returned Build.zero (some (BuildError.other e)), log)
        | Except.ok build =>
          match b.world.completeRequest build with
          | Except.error _ => (BuildResult.panic, log)
          | Except.ok _ =>
            match b.world.logsRequest build with
            | Except.error _ => (BuildResult.panic, log)
            | Except.ok _ =>
              match b.world.encode with
              | some e => (BuildResult.returned Build.zero (some (BuildError.other e)), log)
              | none =>
                match b.world.executeRequest with
                | some e => (BuildResult.returned Build.zero (some (BuildError.other e)), log)
                | none =>
                  let log := log ++ [Effect.execute inputs outputs]
                  match b.world.response with
                  | Except.error e =>
                    (BuildResult.returned Build.zero (some (BuildError.other e)), log)
                  | Except.ok status =>
                    if status != 201 then
                      (BuildResult.returned Build.zero (some BuildError.ErrBadResponse), log)
                    else
                      (BuildResult.returned build none, log)

/-- The error, if any, with which the loop of `computeResources` returns at an input: the
input has no override and is unknown, or its storage query fails or returns nothing. -/
def inputError (b : builder) (resourceOverrides : Resources) (input : Input) :
    Option BuildError :=
  match resourceOverrides.Lookup input.Resource with
  | some _ => none
  | none =>
    match b.resources.Lookup input.Resource with
    | none => some (BuildError.unknownResource input.Resource)
    | some _ =>
      match input.Passed with
      | none => none
      | some passed =>
        match b.world.GetCommonOutputs passed input.Resource with
        | Except.error e => some (BuildError.other e)
        | Except.ok outputs =>
          if outputs.length = 0 then
            some (BuildError.unsatisfiedInput input.Resource passed)
          else none

/-! ### Concrete builders used below -/

/-- Scenario S3: the versions of R common to jobs A and B are `v1`; with job A2 (which also
published `v2`) in place of A they are `v1, v2`; nothing passed job X, and the query for any
other constraint fails. Builds are created with id 1 and the executor answers 201. -/
def worldS3 : World :=
  { GetCommonOutputs := fun passed _ =>
      if passed = ["A", "B"] then Except.ok ["v1"]
      else if passed = ["A2", "B"] then Except.ok ["v1", "v2"]
      else if passed = ["X"] then Except.ok []
      else Except.error "storage failure"
    CreateBuild := fun _ => Except.ok { ID := 1 }
    completeRequest := fun _ => Except.ok "http://winston/jobs/C/builds/1"
    logsRequest := fun _ => Except.ok "ws://winston/jobs/C/builds/1/events"
    encode := none
    executeRequest := none
    response := Except.ok 201 }

/-- A builder over the resources R, Q, foo and foobar. -/
def builderS3 : builder :=
  { resources :=
      [{ Name := "R", Type_ := "git", Source := "r0" },
       { Name := "Q", Type_ := "git", Source := "q0" },
       { Name := "foo", Type_ := "git", Source := "f0" },
       { Name := "foobar", Type_ := "git", Source := "fb0" }]
    world := worldS3 }

/-- Scenario S3: job C takes R with `passed: [A, B]`, Q without a constraint, and pushes to
foo. -/
def jobS3 : Job :=
  { Name := "C", Privileged := false, BuildConfigPath := "R/build.yml",
    Inputs := [{ Resource := "R", Passed := some ["A", "B"] }, { Resource := "Q", Passed := none }],
    Outputs := [{ Resource := "foo", Params := "" }] }

/-- Scenario S3 when job A has also published `v2` (job A2 stands for it). -/
def jobS3b : Job :=
  { jobS3 with
    Inputs := [{ Resource := "Q", Passed := none }, { Resource := "R", Passed := some ["A2", "B"] }] }

/-- A job whose input R is constrained by job X, which no version has passed. -/
def jobUnsatisfied : Job :=
  { jobS3 with
    Inputs := [{ Resource := "Q", Passed := none }, { Resource := "R", Passed := some ["X"] },
      { Resource := "nowhere", Passed := none }] }

/-- A job that pushes to a resource the pipeline does not have. -/
def jobUnknownOutput : Job :=
  { jobS3 with Outputs := [{ Resource := "nowhere", Params := "" }] }

/-- A job whose build configuration lies in the resource foobar. -/
def jobFoobar : Job :=
  { Name := "C", Privileged := false, BuildConfigPath := "foobar/build.yml",
    Inputs := [{ Resource := "foo", Passed := none }, { Resource := "foobar", Passed := none }],
    Outputs := [] }

/-- A job whose build configuration path is the name of the resource foo. -/
def jobFooOnly : Job :=
  { Name := "C", Privileged := false, BuildConfigPath := "foo",
    Inputs := [{ Resource := "foo", Passed := none }], Outputs := [] }

/-- The resource foo of `builderS3`. -/
def resourceFoo : Resource := { Name := "foo", Type_ := "git", Source := "f0" }

/-- An override of R. -/
def overrideR : Resource := { Name := "R", Type_ := "git", Source := "pinned" }

end Builder

namespace Exec

/-! ### Theorems about the hooked composer -/

theorem backgroundProcess_eq (waitErr : Option GoError) (signalled : Bool) :
    backgroundProcess waitErr signalled = waitErr := by
  cases waitErr <;> cases signalled <;> rfl

theorem aggregate_append_singleton (es : List GoError) (e : GoError) :
    some (multierrorAppend (aggregate es) e) = aggregate (es ++ [e]) := by
  cases es <;> simp [aggregate, multierrorAppend]

theorem aggregate_snoc (es : List GoError) (e : GoError) :
    aggregate (es ++ [e]) = some (GoError.multi ((es ++ [e]).flatMap GoError.flat)) := by
  cases es <;> simp [aggregate]

theorem foldl_hookErrors (hooks : List (Role × Step)) (es : List GoError) :
    hooks.foldl
      (fun errors hook =>
        match hook.2.run with
        | some err => some (multierrorAppend errors err)
        | none => errors)
      (aggregate es)
    = aggregate (es ++ hooks.filterMap (fun h => h.2.run)) := by
  induction hooks generalizing es with
  | nil => simp
  | cons h t ih =>
    simp only [List.foldl_cons]
    cases hr : h.2.run with
    | none => simp [List.filterMap_cons, hr, ih]
    | some e =>
      simp only [List.filterMap_cons, hr, aggregate_append_singleton, ih]
      simp

theorem collectHookErrors_eq (sched : Sched) (hooks : List (Role × Step)) :
    collectHookErrors sched hooks
      = aggregate ((if sched.swap then hooks.reverse else hooks).filterMap (fun h => h.2.run)) := by
  have h := foldl_hookErrors (if sched.swap then hooks.reverse else hooks) []
  simp only [collectHookErrors, backgroundProcess_eq]
  simpa [aggregate] using h

theorem foldl_allHooksSuccessful (hooks : List (Role × Step)) (acc : Bool) :
    hooks.foldl
      (fun acc hook =>
        let acc := if !hook.2.resultOk then false else acc
        if !hook.2.resultSuccess then false else acc)
      acc
    = (acc && hooks.all (fun h => h.2.resultOk && h.2.resultSuccess)) := by
  induction hooks generalizing acc with
  | nil => simp
  | cons h t ih =>
    simp only [List.foldl_cons, ih, List.all_cons]
    cases h.2.resultOk <;> cases h.2.resultSuccess <;> cases acc <;> simp

theorem allHooksSuccessful_iff (hooks : List (Role × Step)) :
    allHooksSuccessful hooks = true
      ↔ ∀ h ∈ hooks, h.2.resultOk = true ∧ h.2.resultSuccess = true := by
  rw [allHooksSuccessful, foldl_allHooksSuccessful]
  simp

theorem aggregate_eq_none_iff (es : List GoError) : aggregate es = none ↔ es = [] := by
  cases es <;> simp [aggregate]

theorem aggregate_of_ne_nil (es : List GoError) (h : es ≠ []) :
    aggregate es = some (GoError.multi (es.flatMap GoError.flat)) := by
  cases es with
  | nil => exact absurd rfl h
  | cons e t => rfl

theorem runErrors_eq_nil_iff (hc : hookedCompose) (sched : Sched) :
    hc.runErrors sched = []
      ↔ (hc.step hc.prev).run = none ∧ ∀ h ∈ hc.hooks, h.2.run = none := by
  unfold hookedCompose.runErrors
  cases sched.swap <;> cases (hc.step hc.prev).run <;>
    simp [List.filterMap_eq_nil_iff]

theorem mem_runErrors (hc : hookedCompose) (sched : Sched) (e : GoError) :
    e ∈ hc.runErrors sched
      ↔ (hc.step hc.prev).run = some e ∨ ∃ h ∈ hc.hooks, h.2.run = some e := by
  unfold hookedCompose.runErrors
  cases sched.swap <;> cases (hc.step hc.prev).run <;>
    simp [List.mem_filterMap, eq_comm, or_comm]

/-- The run of a composer whose first step exposes `Success`, with the error bookkeeping of
lines 77-118 summarised by `runErrors`. -/
theorem Run_of_success_exposed (hc : hookedCompose) (sched : Sched)
    (h : (hc.step hc.prev).resultOk = true) :
    hc.Run sched =
      match aggregate (hc.runErrors sched) with
      | some e =>
        { hc := (scheduleHooks { hc with firstStep := some (hc.step hc.prev) } (hc.step hc.prev)
            (hc.step hc.prev).run (hc.step hc.prev).resultSuccess).1,
          err := some e,
          trace := [Event.using Role.first, Event.run Role.first]
            ++ hc.hooks.map (fun h => Event.using h.1) ++ hc.hooks.map (fun h => Event.run h.1) }
      | none =>
        if (hc.step hc.prev).resultSuccess && allHooksSuccessful hc.hooks then
          { hc := { (scheduleHooks { hc with firstStep := some (hc.step hc.prev) }
                (hc.step hc.prev) (hc.step hc.prev).run (hc.step hc.prev).resultSuccess).1 with
              nextStep := some (hc.next (hc.step hc.prev)) },
            err := (hc.next (hc.step hc.prev)).run,
            trace := [Event.using Role.first, Event.run Role.first]
              ++ hc.hooks.map (fun h => Event.using h.1) ++ hc.hooks.map (fun h => Event.run h.1)
              ++ [Event.using Role.next, Event.run Role.next] }
        else
          { hc := { (scheduleHooks { hc with firstStep := some (hc.step hc.prev) }
                (hc.step hc.prev) (hc.step hc.prev).run (hc.step hc.prev).resultSuccess).1 with
              nextStep := some NoopStep },
            err := NoopStep.run,
            trace := [Event.using Role.first, Event.run Role.first]
              ++ hc.hooks.map (fun h => Event.using h.1) ++ hc.hooks.map (fun h => Event.run h.1)
              ++ [Event.runNoop] } := by
  simp only [hookedCompose.Run, hookedCompose.runErrors, hookedCompose.hooks, scheduleHooks,
    backgroundProcess_eq, collectHookErrors_eq, h]
  cases h1 : (hc.step hc.prev).run <;> cases h3 : (hc.step hc.prev).resultSuccess <;>
    cases h4 : sched.swap <;> simp [aggregate_append_singleton, aggregate_snoc]

theorem next_not_mem_hook_events (hc : hookedCompose) :
    Event.using Role.next ∉ [Event.using Role.first, Event.run Role.first]
        ++ hc.hooks.map (fun h => Event.using h.1) ++ hc.hooks.map (fun h => Event.run h.1) ∧
    Event.run Role.next ∉ [Event.using Role.first, Event.run Role.first]
        ++ hc.hooks.map (fun h => Event.using h.1) ++ hc.hooks.map (fun h => Event.run h.1) ∧
    Event.runNoop ∉ [Event.using Role.first, Event.run Role.first]
        ++ hc.hooks.map (fun h => Event.using h.1) ++ hc.hooks.map (fun h => Event.run h.1) := by
  unfold hookedCompose.hooks scheduleHooks
  cases (hc.step hc.prev).run <;> cases (hc.step hc.prev).resultSuccess <;> simp

theorem runErrors_of_first_error (hc : hookedCompose) (sched : Sched) (e1 e2 : GoError)
    (h1 : (hc.step hc.prev).run = some e1) (h2 : (hc.ensure (hc.step hc.prev)).run = some e2) :
    hc.runErrors sched = [e2, e1] := by
  unfold hookedCompose.runErrors hookedCompose.hooks scheduleHooks
  cases sched.swap <;> simp [h1, h2]

theorem Run_of_no_success (hc : hookedCompose) (sched : Sched)
    (h : (hc.step hc.prev).resultOk = false) :
    hc.Run sched =
      { hc := { hc with firstStep := some (hc.step hc.prev) }, err := NoopStep.run,
        trace := [Event.using Role.first, Event.run Role.first, Event.runNoop] } := by
  simp [hookedCompose.Run, h]

/-- C1: in every run, `on_success` is instantiated iff the first step ran without error and
exposes a `Success` result that is true, `on_failure` iff it ran without error and exposes a
`Success` result that is false; the two are never both instantiated in one run. Instantiated
means: the factory's `Using` is called on the first step, and the step it returns is stored
in the composer (`successStep`, `failureStep`) and put on the `hooks` slice; in the other runs
the stored step is left as it was. -/
theorem hooked_success_failure_iff (hc : hookedCompose) (sched : Sched) :
    (Event.using Role.success ∈ (hc.Run sched).trace ↔
      (hc.step hc.prev).run = none ∧ (hc.step hc.prev).resultOk = true
        ∧ (hc.step hc.prev).resultSuccess = true) ∧
    (Event.using Role.failure ∈ (hc.Run sched).trace ↔
      (hc.step hc.prev).run = none ∧ (hc.step hc.prev).resultOk = true
        ∧ (hc.step hc.prev).resultSuccess = false) ∧
    ¬ (Event.using Role.success ∈ (hc.Run sched).trace
        ∧ Event.using Role.failure ∈ (hc.Run sched).trace) ∧
    (Event.using Role.success ∈ (hc.Run sched).trace →
      (hc.Run sched).hc.successStep = some (hc.success (hc.step hc.prev))
        ∧ (Role.success, hc.success (hc.step hc.prev)) ∈ hc.hooks
        ∧ (hc.Run sched).hc.failureStep = hc.failureStep) ∧
    (Event.using Role.failure ∈ (hc.Run sched).trace →
      (hc.Run sched).hc.failureStep = some (hc.failure (hc.step hc.prev))
        ∧ (Role.failure, hc.failure (hc.step hc.prev)) ∈ hc.hooks
        ∧ (hc.Run sched).hc.successStep = hc.successStep) ∧
    (Event.using Role.success ∉ (hc.Run sched).trace →
      (hc.Run sched).hc.successStep = hc.successStep) ∧
    (Event.using Role.failure ∉ (hc.Run sched).trace →
      (hc.Run sched).hc.failureStep = hc.failureStep) := by
  simp only [hookedCompose.Run, hookedCompose.hooks, scheduleHooks, backgroundProcess_eq]
  cases h1 : (hc.step hc.prev).run <;> cases h2 : (hc.step hc.prev).resultOk <;>
    cases h3 : (hc.step hc.prev).resultSuccess <;> simp
  all_goals (split <;> (try split_ifs) <;> simp)

/-- An instance of C1: a fresh composer whose first step succeeds stores the step made by
its `on_success` factory and leaves `failureStep` nil. -/
theorem hooked_success_failure_example :
    Event.using Role.success ∈ (hcHookError.Run quiet).trace ∧
    (hcHookError.Run quiet).hc.successStep = some okStep ∧
    (hcHookError.Run quiet).hc.failureStep = none :=
  ⟨by decide, rfl, rfl⟩

/-- C2, as stated, fails: the first step of `hcNoSuccess` finishes (without error) but exposes
no `Success` result, and the run neither instantiates nor runs the ensure hook. -/
theorem ensure_not_run_without_success :
    Event.run Role.first ∈ (hcNoSuccess.Run quiet).trace ∧
    Event.using Role.ensure ∉ (hcNoSuccess.Run quiet).trace ∧
    Event.run Role.ensure ∉ (hcNoSuccess.Run quiet).trace ∧
    (hcNoSuccess.Run quiet).hc.ensureStep.isNone = true := by
  decide

/-- C2 (amended): the ensure hook is instantiated and run in exactly the runs whose first step
exposes a `Success` result, whether or not the first step returned an error. -/
theorem ensure_run_iff_success_exposed (hc : hookedCompose) (sched : Sched) :
    (Event.using Role.ensure ∈ (hc.Run sched).trace ↔ (hc.step hc.prev).resultOk = true) ∧
    (Event.run Role.ensure ∈ (hc.Run sched).trace ↔ (hc.step hc.prev).resultOk = true) ∧
    ((hc.step hc.prev).resultOk = true →
      (hc.Run sched).hc.ensureStep = some (hc.ensure (hc.step hc.prev))) := by
  simp only [hookedCompose.Run, scheduleHooks, backgroundProcess_eq]
  cases h1 : (hc.step hc.prev).run <;> cases h2 : (hc.step hc.prev).resultOk <;>
    cases h3 : (hc.step hc.prev).resultSuccess <;> simp
  all_goals (split <;> (try split_ifs) <;> simp)

/-- C3, as stated, fails: in `hcHookError` the first step succeeds and every scheduled hook
exposes a `Success` result that is true, but the ensure hook's run returned an error, so
`Run` returns the aggregate and the next factory is not instantiated. -/
theorem next_not_instantiated_on_hook_error :
    (hcHookError.step hcHookError.prev).run.isNone = true ∧
    (hcHookError.step hcHookError.prev).resultOk = true ∧
    (hcHookError.step hcHookError.prev).resultSuccess = true ∧
    (∀ h ∈ hcHookError.hooks, h.2.resultOk = true ∧ h.2.resultSuccess = true) ∧
    Event.using Role.next ∉ (hcHookError.Run quiet).trace ∧
    (hcHookError.Run quiet).hc.nextStep.isNone = true := by
  decide


/-- C3 (amended): the next factory is instantiated iff the first step succeeded (no run error,
`Success` exposed and true), no scheduled hook's run returned an error, and every scheduled
hook exposed a `Success` result that is true. In every other run that reaches the end of
`Run` (the first step exposes `Success` and no run error occurred) the next step is the
no-op step. -/
theorem next_instantiated_iff (hc : hookedCompose) (sched : Sched) :
    (Event.using Role.next ∈ (hc.Run sched).trace ↔
      (hc.step hc.prev).run = none ∧ (hc.step hc.prev).resultOk = true
        ∧ (hc.step hc.prev).resultSuccess = true
        ∧ (∀ h ∈ hc.hooks, h.2.run = none)
        ∧ (∀ h ∈ hc.hooks, h.2.resultOk = true ∧ h.2.resultSuccess = true)) ∧
    (Event.using Role.next ∈ (hc.Run sched).trace →
      (hc.Run sched).hc.nextStep = some (hc.next (hc.step hc.prev))) ∧
    ((hc.step hc.prev).resultOk = true → (hc.step hc.prev).run = none →
      (∀ h ∈ hc.hooks, h.2.run = none) → Event.using Role.next ∉ (hc.Run sched).trace →
      (hc.Run sched).hc.nextStep = some NoopStep) := by
  cases h2 : (hc.step hc.prev).resultOk with
  | false => simp [Run_of_no_success hc sched h2]
  | true =>
    have hn := (next_not_mem_hook_events hc).1
    rw [Run_of_success_exposed hc sched h2]
    cases hE : hc.runErrors sched with
    | nil =>
      have hnil := (runErrors_eq_nil_iff hc sched).1 hE
      simp only [aggregate]
      by_cases hs : (hc.step hc.prev).resultSuccess = true
      · by_cases ha : allHooksSuccessful hc.hooks = true
        · have ha2 := (allHooksSuccessful_iff hc.hooks).1 ha
          simp only [hs, ha, Bool.and_self, if_true]
          refine ⟨⟨fun _ => ⟨hnil.1, trivial, trivial, hnil.2, ha2⟩, fun _ => by simp⟩,
            fun _ => trivial, fun _ _ _ hno => absurd (by simp) hno⟩
        · have ha2 := fun h => ha ((allHooksSuccessful_iff hc.hooks).2 h)
          simp only [hs, ha, Bool.and_false, Bool.false_eq_true, if_false]
          refine ⟨⟨fun hm => ?_, fun hr => absurd hr.2.2.2.2 ha2⟩, fun hm => ?_,
            fun _ _ _ _ => trivial⟩
          · rw [List.mem_append] at hm
            rcases hm with hm | hm
            · exact absurd hm hn
            · simp at hm
          · rw [List.mem_append] at hm
            rcases hm with hm | hm
            · exact absurd hm hn
            · simp at hm
      · simp only [hs, Bool.false_and, Bool.false_eq_true, if_false]
        refine ⟨⟨fun hm => ?_, fun hr => absurd hr.2.2.1 (by simp [hs])⟩, fun hm => ?_,
          fun _ _ _ _ => trivial⟩
        · rw [List.mem_append] at hm
          rcases hm with hm | hm
          · exact absurd hm hn
          · simp at hm
        · rw [List.mem_append] at hm
          rcases hm with hm | hm
          · exact absurd hm hn
          · simp at hm
    | cons e es =>
      have hne : ¬ ((hc.step hc.prev).run = none ∧ ∀ h ∈ hc.hooks, h.2.run = none) := by
        rw [← runErrors_eq_nil_iff hc sched, hE]
        simp
      simp only [aggregate]
      refine ⟨⟨fun hm => absurd hm hn, fun hr => absurd ⟨hr.1, hr.2.2.2.1⟩ hne⟩,
        fun hm => absurd hm hn, fun _ h1 h3 _ => absurd ⟨h1, h3⟩ hne⟩

/-- C4, as stated, fails. (1) In `hcNextAggregate` neither the first step nor a scheduled
hook returns an error, yet `Run` returns an aggregate error: the one its next step returned.
(2) In `hcNested` the first step returns the aggregate of `E1` and `E2` and the ensure hook
`E3`: the aggregate `Run` returns lists `E3`, `E1`, `E2`, the first step's error being
flattened into its members and not contained as such. -/
theorem aggregate_not_only_own_errors :
    ((hcNextAggregate.step hcNextAggregate.prev).resultOk = true ∧
      (hcNextAggregate.step hcNextAggregate.prev).run.isNone = true ∧
      (∀ h ∈ hcNextAggregate.hooks, h.2.run.isNone = true) ∧
      (hcNextAggregate.Run quiet).err = some (GoError.multi [E1, E2])) ∧
    ((hcNested.step hcNested.prev).resultOk = true ∧
      (hcNested.step hcNested.prev).run = some (GoError.multi [E1, E2]) ∧
      (hcNested.ensure (hcNested.step hcNested.prev)).run = some E3 ∧
      (hcNested.Run quiet).err = some (GoError.multi [E3, E1, E2])) :=
  ⟨⟨rfl, rfl, by decide, rfl⟩, ⟨rfl, rfl, rfl, rfl⟩⟩

/-- C4 (amended): for a run whose first step exposes `Success`, `Run` returns the aggregate
it builds from the run errors, without instantiating or running next or a no-op, iff the
first step's run error or a scheduled hook's run error is non-nil. The errors appended are
exactly those non-nil run errors (`runErrors`: the hooks' as they arrive, then the first
step's), and the aggregate lists them, the member errors of an error that is itself an
aggregate standing in for it (`GoError.flat`). When there is no such error `Run` returns
what the next step or the no-op returned. When the first step returns `e1` and the ensure
hook `e2`, the aggregate lists `e2` and then `e1`. -/
theorem aggregate_error_iff (hc : hookedCompose) (sched : Sched)
    (h : (hc.step hc.prev).resultOk = true) :
    (∀ e, e ∈ hc.runErrors sched
        ↔ (hc.step hc.prev).run = some e ∨ ∃ h ∈ hc.hooks, h.2.run = some e) ∧
    (((hc.step hc.prev).run ≠ none ∨ ∃ h ∈ hc.hooks, h.2.run ≠ none) ↔
      ((hc.Run sched).err
          = some (GoError.multi ((hc.runErrors sched).flatMap GoError.flat))
        ∧ Event.using Role.next ∉ (hc.Run sched).trace
        ∧ Event.run Role.next ∉ (hc.Run sched).trace
        ∧ Event.runNoop ∉ (hc.Run sched).trace)) ∧
    (((hc.step hc.prev).run = none ∧ ∀ h ∈ hc.hooks, h.2.run = none) →
      ∃ s, (hc.Run sched).hc.nextStep = some s ∧ (hc.Run sched).err = s.run
        ∧ (Event.run Role.next ∈ (hc.Run sched).trace
          ∨ Event.runNoop ∈ (hc.Run sched).trace)) ∧
    (∀ e1 e2, (hc.step hc.prev).run = some e1 → (hc.ensure (hc.step hc.prev)).run = some e2 →
      (hc.Run sched).err = some (GoError.multi (e2.flat ++ e1.flat))
        ∧ Event.using Role.next ∉ (hc.Run sched).trace) := by
  have hn := next_not_mem_hook_events hc
  have hany : ((hc.step hc.prev).run ≠ none ∨ ∃ h ∈ hc.hooks, h.2.run ≠ none)
      ↔ hc.runErrors sched ≠ [] := by
    have hiff := not_iff_not.2 (runErrors_eq_nil_iff hc sched)
    rw [not_and_or] at hiff
    constructor
    · intro ha
      refine hiff.2 ?_
      rcases ha with ha | ⟨x, hx, hxr⟩
      · exact Or.inl ha
      · exact Or.inr (fun hall => hxr (hall x hx))
    · intro hne
      rcases hiff.1 hne with ha | ha
      · exact Or.inl ha
      · right
        by_contra hcon
        exact ha (fun x hx => by
          by_contra hxr
          exact hcon ⟨x, hx, hxr⟩)
  have herr : hc.runErrors sched ≠ [] →
      (hc.Run sched).err = some (GoError.multi ((hc.runErrors sched).flatMap GoError.flat))
        ∧ Event.using Role.next ∉ (hc.Run sched).trace
        ∧ Event.run Role.next ∉ (hc.Run sched).trace
        ∧ Event.runNoop ∉ (hc.Run sched).trace := by
    intro hne
    rw [Run_of_success_exposed hc sched h, aggregate_of_ne_nil _ hne]
    exact ⟨rfl, hn.1, hn.2.1, hn.2.2⟩
  have hok : hc.runErrors sched = [] →
      (∃ s, (hc.Run sched).hc.nextStep = some s ∧ (hc.Run sched).err = s.run)
        ∧ (Event.run Role.next ∈ (hc.Run sched).trace
          ∨ Event.runNoop ∈ (hc.Run sched).trace) := by
    intro hnil
    rw [Run_of_success_exposed hc sched h, hnil]
    simp only [aggregate]
    split_ifs
    · exact ⟨⟨_, rfl, rfl⟩, Or.inl (by simp)⟩
    · exact ⟨⟨_, rfl, rfl⟩, Or.inr (by simp)⟩
  refine ⟨mem_runErrors hc sched, ⟨fun ha => herr (hany.1 ha), fun hr => ?_⟩, fun hno => ?_,
    fun e1 e2 h1 h2 => ?_⟩
  · by_contra hcon
    have hnil : hc.runErrors sched = [] := by
      by_contra hne
      exact hcon (hany.2 hne)
    rcases (hok hnil).2 with hm | hm
    · exact hr.2.2.1 hm
    · exact hr.2.2.2 hm
  · obtain ⟨⟨s, hs1, hs2⟩, htr⟩ := hok ((runErrors_eq_nil_iff hc sched).2 hno)
    exact ⟨s, hs1, hs2, htr⟩
  · have hre := runErrors_of_first_error hc sched e1 e2 h1 h2
    have := herr (by rw [hre]; simp)
    rw [hre] at this
    simp only [List.flatMap_cons, List.flatMap_nil, List.append_nil] at this
    exact ⟨this.1, this.2.1⟩

/-- Witness for C4 (scenario S5): first step fails with `E1`, ensure hook with `E2`. -/
theorem aggregate_error_S5 :
    (hcS5.step hcS5.prev).resultOk = true ∧
    (hcS5.Run quiet).err = some (GoError.multi [E2, E1]) ∧
    Event.using Role.next ∉ (hcS5.Run quiet).trace :=
  ⟨rfl, (aggregate_error_iff hcS5 quiet rfl).2.2.2 E1 E2 rfl rfl⟩

/-- C5 (evaluation at the failing input): the first step of `hcErrNoSuccess` returns `E1`
and exposes no `Success` result; `Run` returns nil, so the error is dropped. -/
theorem first_error_dropped_without_success :
    (hcErrNoSuccess.step hcErrNoSuccess.prev).run = some E1 ∧
    (hcErrNoSuccess.step hcErrNoSuccess.prev).resultOk = false ∧
    (hcErrNoSuccess.Run quiet).err = none :=
  ⟨rfl, rfl, rfl⟩

/-- C6 (evaluation at the failing inputs): after a run whose first step exposes no `Success`
result (`hcNoSuccess`), and after a run that returned the aggregated errors (`hcS5`), the
composer's `nextStep` is still nil, so `Result` is a call on a nil step. -/
theorem result_undefined_after_short_circuit :
    (hcNoSuccess.Run quiet).err = none ∧
    (hcNoSuccess.Run quiet).hc.nextStep = none ∧
    (hcNoSuccess.Run quiet).hc.Result = none ∧
    (hcS5.Run quiet).err = some (GoError.multi [E2, E1]) ∧
    (hcS5.Run quiet).hc.nextStep = none ∧
    (hcS5.Run quiet).hc.Result = none :=
  ⟨rfl, rfl, rfl, rfl, rfl, rfl⟩

theorem Release_unfold (hc : hookedCompose) :
    hc.Release =
      (let acc := releaseOrder.foldl
          (fun acc r => releaseChild r r.label (hc.child r) acc) ([], [])
       if acc.2.length > 0 then
         (acc.1, some ("sources failed to release:\n" ++ "\n".intercalate acc.2))
       else (acc.1, none)) :=
  rfl

theorem foldl_releaseChild (hc : hookedCompose) (l : List Role)
    (acc : List Role × List String) :
    l.foldl (fun acc r => releaseChild r r.label (hc.child r) acc) acc
      = (acc.1 ++ l.filter (fun r => (hc.child r).isSome),
         acc.2 ++ l.filterMap
          (fun r => (hc.child r).bind (fun s => s.release.map (fun m => r.label ++ m)))) := by
  induction l generalizing acc with
  | nil => simp
  | cons r t ih =>
    rw [List.foldl_cons, ih]
    cases hch : hc.child r with
    | none => simp [releaseChild, hch, List.filter_cons, List.filterMap_cons]
    | some st =>
      cases hrel : st.release with
      | none => simp [releaseChild, hch, hrel, List.filter_cons, List.filterMap_cons]
      | some m => simp [releaseChild, hch, hrel, List.filter_cons, List.filterMap_cons]

theorem Release_eq (hc : hookedCompose) :
    hc.Release =
      (releaseOrder.filter (fun r => (hc.child r).isSome),
        match hc.releaseMessages with
        | [] => none
        | m :: ms => some ("sources failed to release:\n" ++ "\n".intercalate (m :: ms))) := by
  rw [Release_unfold, foldl_releaseChild]
  unfold hookedCompose.releaseMessages
  generalize releaseOrder.filterMap
    (fun r => (hc.child r).bind (fun s => s.release.map (fun m => r.label ++ m))) = msgs
  cases msgs <;> simp

theorem mem_releaseOrder (r : Role) : r ∈ releaseOrder := by
  cases r <;> simp [releaseOrder]

theorem releaseMessages_eq_nil_iff (hc : hookedCompose) :
    hc.releaseMessages = [] ↔ ∀ r s, hc.child r = some s → s.release = none := by
  unfold hookedCompose.releaseMessages
  rw [List.filterMap_eq_nil_iff]
  constructor
  · intro h r s hs
    have := h r (mem_releaseOrder r)
    rw [hs] at this
    cases hrel : s.release with
    | none => rfl
    | some m => simp [hrel] at this
  · intro h r _
    cases hch : hc.child r with
    | none => rfl
    | some s => simp [h r s hch]

/-- C7: `Release` calls the release of every instantiated child, in the order first, ensure,
failure, success, next, each exactly once and of no other child, whatever the earlier
releases returned; it returns nil iff every release it called returned nil, and otherwise
one error whose message is "sources failed to release:" and a newline, followed by the
failing children's messages, each with its role text in front, joined by newlines in
that order. -/
theorem release_calls_and_error (hc : hookedCompose) :
    hc.Release.1 = releaseOrder.filter (fun r => (hc.child r).isSome) ∧
    (∀ r, hc.Release.1.count r = if (hc.child r).isSome then 1 else 0) ∧
    (hc.Release.2 = none
      ↔ ∀ r ∈ hc.Release.1, ∀ s, hc.child r = some s → s.release = none) ∧
    (hc.Release.2 ≠ none →
      hc.Release.2
        = some ("sources failed to release:\n" ++ "\n".intercalate hc.releaseMessages)) := by
  rw [Release_eq]
  refine ⟨rfl, fun r => ?_, ?_, ?_⟩
  · by_cases hp : (hc.child r).isSome = true
    · rw [List.count_filter (by simpa using hp), if_pos hp]
      cases r <;> decide
    · rw [if_neg hp]
      exact List.count_eq_zero_of_not_mem (fun hm => hp (by simpa using (List.mem_filter.1 hm).2))
  · have hnil := releaseMessages_eq_nil_iff hc
    constructor
    · intro h r _ s hs
      cases hm : hc.releaseMessages with
      | nil => exact hnil.1 hm r s hs
      | cons m ms => simp [hm] at h
    · intro h
      have : hc.releaseMessages = [] :=
        hnil.2 (fun r s hs => h r (List.mem_filter.2 ⟨mem_releaseOrder r, by simp [hs]⟩) s hs)
      simp [this]
  · intro h
    cases hm : hc.releaseMessages with
    | nil => simp [hm] at h
    | cons m ms => simp

/-- An instance of C7: with every child but failure instantiated and the ensure and next
releases failing, all four releases are called and both messages are reported. -/
theorem release_calls_and_error_example :
    hcReleaseAll.Release
      = ([Role.first, Role.ensure, Role.success, Role.next],
         some "sources failed to release:\nensure step: e\nnext step: n") := by
  rfl

end Exec

namespace Db

/-! ### Theorems about the build event source -/

theorem sendRows_completedBuild (table : List Row) (src : Source) (cursor rowsReturned : Nat)
    (rows : List Row) :
    sendRows (Poll.completedBuild table) src cursor rowsReturned rows =
      { src := { src with events := src.events ++ rows.map Row.envelope },
        cursor := cursor + rows.length, rowsReturned := rowsReturned + rows.length,
        returned := false } := by
  induction rows generalizing src cursor rowsReturned with
  | nil => simp [sendRows]
  | cons r rest ih =>
    simp only [sendRows, Poll.completedBuild, Bool.false_eq_true, if_false] at ih ⊢
    rw [ih]
    simp [Nat.add_assoc, Nat.add_comm 1]

/-- On a completed build that is not written to any more, `collectEvents` started at `cursor`
sends the events after the first `cursor` ones and ends the stream, once it is given the
passes it needs. -/
theorem collectEvents_completedBuild (table : List Row) (m : Nat) (src : Source) (cursor : Nat)
    (hcap : 0 < src.eventsCap)
    (hm : ((buildEvents table src.buildID).length - cursor) / src.eventsCap + 1 ≤ m) :
    collectEvents src cursor (List.replicate m (Poll.completedBuild table)) =
      ({ src with events := src.events
          ++ ((buildEvents table src.buildID).drop cursor).map Row.envelope }).terminate
        SourceError.ErrEndOfBuildEventStream := by
  induction m generalizing src cursor with
  | zero => exact absurd hm (Nat.not_succ_le_zero _)
  | succ m ih =>
    rw [List.replicate_succ, collectEvents]
    simp only [sendRows_completedBuild]
    simp only [Poll.completedBuild, Bool.false_eq_true, if_false, Nat.zero_add, if_true] at ih ⊢
    have hq : queryEvents table src.buildID cursor src.eventsCap
        = ((buildEvents table src.buildID).drop cursor).take src.eventsCap := rfl
    rw [hq]
    generalize hevs : buildEvents table src.buildID = evs at ih hm ⊢
    by_cases hfull : ((evs.drop cursor).take src.eventsCap).length = src.eventsCap
    · have hle : src.eventsCap ≤ evs.length - cursor := by
        rw [List.length_take, List.length_drop] at hfull
        omega
      have hdiv := Nat.div_eq_sub_div hcap hle
      have hm2 : (evs.length - (cursor + src.eventsCap)) / src.eventsCap + 1 ≤ m := by
        have : evs.length - (cursor + src.eventsCap) = evs.length - cursor - src.eventsCap := by
          omega
        rw [this]
        omega
      rw [if_pos (by simpa using hfull), hfull]
      have := ih { src with events := src.events
          ++ ((evs.drop cursor).take src.eventsCap).map Row.envelope }
        (cursor + src.eventsCap) hcap (by simpa [hevs] using hm2)
      simp only [hevs] at this
      rw [this]
      have hsplit : (evs.drop cursor).take src.eventsCap ++ evs.drop (cursor + src.eventsCap)
          = evs.drop cursor := by
        rw [← List.drop_drop]
        exact List.take_append_drop _ _
      simp only [List.append_assoc, ← List.map_append, hsplit]
    · have hlt : evs.length - cursor < src.eventsCap := by
        rw [List.length_take, List.length_drop] at hfull
        omega
      rw [if_neg (by simpa using hfull)]
      rw [List.take_of_length_le (by rw [List.length_drop]; omega)]
theorem nextN_closed (n : Nat) (src : Source) (h : src.eventsClosed = true) :
    src.nextN n = (src.events.take n).map (fun e => (e, none))
      ++ List.replicate (n - src.events.length) (Envelope.zero, src.err) := by
  induction n generalizing src with
  | zero => simp [Source.nextN]
  | succ n ih =>
    cases hev : src.events with
    | nil =>
      have := ih src h
      simp only [hev] at this
      simp [Source.nextN, Source.Next, hev, h, this, List.replicate_succ]
    | cons e rest =>
      have := ih { src with events := rest } h
      simp only at this
      simp [Source.nextN, Source.Next, hev, this]

theorem drop_range' (k s n : Nat) : (List.range' s n).drop k = List.range' (s + k) (n - k) := by
  induction k generalizing s n with
  | zero => simp
  | succ k ih =>
    cases n with
    | zero => simp
    | succ n =>
      rw [List.range'_succ, List.drop_succ_cons, ih]
      congr 1 <;> omega

theorem filter_event_id_eq_drop (evs : List Row) (s n k : Nat)
    (h : evs.map Row.event_id = List.range' s n) :
    evs.filter (fun r => decide (k + s ≤ r.event_id)) = evs.drop k := by
  induction evs generalizing s n k with
  | nil => simp
  | cons r t ih =>
    rw [List.map_cons] at h
    obtain ⟨hs, _, ht⟩ := List.range'_eq_cons_iff.1 h.symm
    cases k with
    | zero =>
      rw [List.drop_zero, List.filter_eq_self]
      intro a ha
      have hmem : a.event_id ∈ List.range' s n := by
        rw [← h, ← List.map_cons]
        exact List.mem_map_of_mem _ ha
      have := (List.mem_range'_1.1 hmem).1
      simpa using this
    | succ k =>
      have hr : ¬ (k + 1 + s ≤ r.event_id) := by omega
      rw [List.filter_cons, if_neg (by simpa using hr), List.drop_succ_cons]
      have := ih (r.event_id + 1) (n - 1) k ht
      rw [← this]
      congr 1
      funext x
      congr 1
      rw [← hs]
      apply propext
      constructor <;> intro hx <;> omega

theorem eventsAfter_eq_drop (table : List Row) (buildID n k : Nat)
    (hids : (buildEvents table buildID).map Row.event_id = List.range' 1 n) :
    eventsAfter table buildID k = (buildEvents table buildID).drop k := by
  unfold eventsAfter
  rw [← filter_event_id_eq_drop _ 1 n k hids]
  rfl

/-- The completed-build replay, for any batch size and any passes to spare. -/
theorem replay_completedBuild (table : List Row) (buildID k m : Nat)
    (hm : ((buildEvents table buildID).length - k) / 2000 + 1 ≤ m) :
    (newSQLDBBuildEventSource buildID k (List.replicate m (Poll.completedBuild table))).wg = 0 ∧
    ∀ j, (newSQLDBBuildEventSource buildID k
          (List.replicate m (Poll.completedBuild table))).nextN
          (((buildEvents table buildID).drop k).length + j)
        = ((buildEvents table buildID).drop k).map (fun r => (r.envelope, none))
          ++ List.replicate j (Envelope.zero, some SourceError.ErrEndOfBuildEventStream) := by
  unfold newSQLDBBuildEventSource
  simp only
  rw [collectEvents_completedBuild table m _ k (by simp) (by simpa using hm)]
  refine ⟨rfl, fun j => ?_⟩
  rw [nextN_closed _ _ rfl]
  simp only [Source.terminate, List.nil_append]
  generalize (buildEvents table buildID).drop k = evs
  rw [List.take_of_length_le (by simp), List.length_map]
  simp

/-- C8: for a completed build whose events have the ids 1..n and which is not written to any
more, a source opened at `k` has its producer return (given the passes it needs, one more
than the number of full batches of 2000), and successive `Next` calls return exactly the
events with ids k+1..n in ascending order (none when k >= n), each once, followed by
`ErrEndOfBuildEventStream` on every further call; n is arbitrary. -/
theorem completed_build_replay (table : List Row) (buildID n k m : Nat)
    (hids : (buildEvents table buildID).map Row.event_id = List.range' 1 n)
    (hm : (n - k) / 2000 + 1 ≤ m) :
    (newSQLDBBuildEventSource buildID k (List.replicate m (Poll.completedBuild table))).wg = 0 ∧
    (eventsAfter table buildID k).map Row.event_id = List.range' (k + 1) (n - k) ∧
    ∀ j, (newSQLDBBuildEventSource buildID k
          (List.replicate m (Poll.completedBuild table))).nextN (n - k + j)
        = (eventsAfter table buildID k).map (fun r => (r.envelope, none))
          ++ List.replicate j (Envelope.zero, some SourceError.ErrEndOfBuildEventStream) := by
  have hlen : (buildEvents table buildID).length = n := by
    have := congrArg List.length hids
    simpa using this
  have hdrop := eventsAfter_eq_drop table buildID n k hids
  have hrep := replay_completedBuild table buildID k m (by rw [hlen]; exact hm)
  refine ⟨hrep.1, ?_, fun j => ?_⟩
  · rw [hdrop, List.map_drop, hids, drop_range', Nat.add_comm]
  · have := hrep.2 j
    rw [List.length_drop, hlen] at this
    rw [this, hdrop]

/-- Witness for C8 (scenario S1): events 1, 2, 3 of the completed build 42; a source opened
at 0 yields a, b, c and then the end of the stream, a source opened at 2 yields c and then
the end of the stream. -/
theorem completed_build_replay_S1 :
    (newSQLDBBuildEventSource 42 0 [Poll.completedBuild tableS1]).nextN 4
      = [({ Data := some "a", Event := "log", Version := "1.0" }, none),
         ({ Data := some "b", Event := "log", Version := "1.0" }, none),
         ({ Data := some "c", Event := "log", Version := "1.0" }, none),
         (Envelope.zero, some SourceError.ErrEndOfBuildEventStream)] ∧
    (newSQLDBBuildEventSource 42 2 [Poll.completedBuild tableS1]).nextN 3
      = [({ Data := some "c", Event := "log", Version := "1.0" }, none),
         (Envelope.zero, some SourceError.ErrEndOfBuildEventStream),
         (Envelope.zero, some SourceError.ErrEndOfBuildEventStream)] :=
  ⟨(completed_build_replay tableS1 42 3 0 1 (by decide) (by decide)).2.2 1,
   (completed_build_replay tableS1 42 3 2 1 (by decide) (by decide)).2.2 2⟩

/-- The batch boundary, on a source with a channel of capacity 2 and four events: after two
full batches the producer has not returned yet; the third pass reads no row and ends the
stream. -/
theorem collectEvents_exact_multiple_example :
    (collectEvents
      { buildID := 42, events := [], eventsCap := 2, eventsClosed := false,
        stopClosed := false, err := none, wg := 1 } 1
      (List.replicate 2 (Poll.completedBuild
        ({ build_id := 42, event_id := 4, type := "log", version := "1.0", payload := "d" }
          :: { build_id := 42, event_id := 5, type := "log", version := "1.0", payload := "e" }
          :: tableS1)))).wg = 1 ∧
    (collectEvents
      { buildID := 42, events := [], eventsCap := 2, eventsClosed := false,
        stopClosed := false, err := none, wg := 1 } 1
      (List.replicate 3 (Poll.completedBuild
        ({ build_id := 42, event_id := 4, type := "log", version := "1.0", payload := "d" }
          :: { build_id := 42, event_id := 5, type := "log", version := "1.0", payload := "e" }
          :: tableS1)))).nextN 5
      = [({ Data := some "b", Event := "log", Version := "1.0" }, none),
         ({ Data := some "c", Event := "log", Version := "1.0" }, none),
         ({ Data := some "d", Event := "log", Version := "1.0" }, none),
         ({ Data := some "e", Event := "log", Version := "1.0" }, none),
         (Envelope.zero, some SourceError.ErrEndOfBuildEventStream)] := by
  decide

/-- C9, as stated, fails: the events of build 42 in `tableGaps` have the strictly increasing
ids 2, 4, 6; the batch read at cursor 1 skips one row (`OFFSET 1`) and holds the events 4 and 6,
not the three events whose id is greater than 1, and a source opened at 1 delivers b, c. -/
theorem batch_is_by_offset_not_event_id :
    List.Pairwise (fun a b => a < b) ((buildEvents tableGaps 42).map Row.event_id) ∧
    (queryEvents tableGaps 42 1 2000).map Row.event_id = [4, 6] ∧
    ((eventsAfter tableGaps 42 1).take 2000).map Row.event_id = [2, 4, 6] ∧
    (newSQLDBBuildEventSource 42 1 [Poll.completedBuild tableGaps]).nextN 3
      = [({ Data := some "b", Event := "log", Version := "1.0" }, none),
         ({ Data := some "c", Event := "log", Version := "1.0" }, none),
         (Envelope.zero, some SourceError.ErrEndOfBuildEventStream)] := by
  decide

/-- C9 (amended): each batch read by the producer holds the events that follow the first
`cursor` events of the build in ascending `event_id` order (`OFFSET cursor`), at most 2000 of
them; so a source opened at `c` on a completed build delivers exactly the events after the
first `c` ones, in that order, and then the end of the stream. These are the events with
`event_id > c` when the ids are exactly 1..n. -/
theorem batch_by_offset (table : List Row) (buildID c m : Nat)
    (hm : ((buildEvents table buildID).length - c) / 2000 + 1 ≤ m) :
    (∀ cursor, queryEvents table buildID cursor 2000
        = ((buildEvents table buildID).drop cursor).take 2000) ∧
    List.Pairwise (fun a b => a ≤ b) ((buildEvents table buildID).map Row.event_id) ∧
    (∀ j, (newSQLDBBuildEventSource buildID c
          (List.replicate m (Poll.completedBuild table))).nextN
          ((buildEvents table buildID).length - c + j)
        = ((buildEvents table buildID).drop c).map (fun r => (r.envelope, none))
          ++ List.replicate j (Envelope.zero, some SourceError.ErrEndOfBuildEventStream)) ∧
    (∀ n, (buildEvents table buildID).map Row.event_id = List.range' 1 n →
      (buildEvents table buildID).drop c = eventsAfter table buildID c) := by
  refine ⟨fun _ => rfl, ?_, fun j => ?_, fun n hids => (eventsAfter_eq_drop table buildID n c hids).symm⟩
  · rw [List.pairwise_map]
    have : IsTotal Row (fun a b => a.event_id ≤ b.event_id) := ⟨fun a b => Nat.le_total _ _⟩
    have : IsTrans Row (fun a b => a.event_id ≤ b.event_id) :=
      ⟨fun a b c hab hbc => Nat.le_trans hab hbc⟩
    exact List.sorted_insertionSort (fun (a b : Row) => a.event_id ≤ b.event_id) _
  · have := (replay_completedBuild table buildID c m hm).2 j
    rwa [List.length_drop] at this

/-- Witness for C9 (amended): opened at 1 on the events 2, 4, 6, the source delivers the second
and third event. -/
theorem batch_by_offset_gaps :
    (newSQLDBBuildEventSource 42 1 [Poll.completedBuild tableGaps]).nextN 3
      = [({ Data := some "b", Event := "log", Version := "1.0" }, none),
         ({ Data := some "c", Event := "log", Version := "1.0" }, none),
         (Envelope.zero, some SourceError.ErrEndOfBuildEventStream)] :=
  (batch_by_offset tableGaps 42 1 1 (by decide)).2.2.1 1

theorem terminate_finished (src : Source) (e : SourceError) (h : src.wg = 1) :
    (src.terminate e).finished := by
  simp [Source.terminate, Source.finished, h]

theorem sendRows_state (p : Poll) (src : Source) (cursor rowsReturned : Nat) (rows : List Row)
    (h : src.running) :
    ((sendRows p src cursor rowsReturned rows).returned = false
        ∧ (sendRows p src cursor rowsReturned rows).src.running) ∨
    ((sendRows p src cursor rowsReturned rows).returned = true
        ∧ (sendRows p src cursor rowsReturned rows).src.finished) := by
  induction rows generalizing src cursor rowsReturned with
  | nil => exact Or.inl ⟨rfl, h⟩
  | cons r rest ih =>
    simp only [sendRows]
    cases hnext : p.nextErr (rowsReturned + 1) with
    | true => exact Or.inl ⟨by simp, by simpa using h⟩
    | false =>
      simp only [Bool.false_eq_true, if_false]
      cases hscan : p.scanErr (rowsReturned + 1) with
      | some e => exact Or.inr ⟨rfl, terminate_finished _ _ h.1⟩
      | none =>
        cases hstop : p.stopAtSend (rowsReturned + 1) with
        | true => exact Or.inr ⟨by simp, by simpa using terminate_finished _ _ h.1⟩
        | false =>
          simp only [Bool.false_eq_true, if_false]
          exact ih { src with events := src.events ++ [r.envelope] } _ _ h

/-- The producer either is still running or has returned, and once it has returned further
passes change nothing. -/
theorem collectEvents_state (polls more : List Poll) (src : Source) (cursor : Nat)
    (h : src.running) :
    ((collectEvents src cursor polls).running ∨ (collectEvents src cursor polls).finished) ∧
    ((collectEvents src cursor polls).wg = 0 →
      collectEvents src cursor (polls ++ more) = collectEvents src cursor polls) := by
  induction polls generalizing src cursor with
  | nil =>
    refine ⟨Or.inl h, fun h0 => ?_⟩
    simp [collectEvents, h.1] at h0
  | cons p polls ih =>
    rw [List.cons_append]
    simp only [collectEvents]
    cases htop : p.stopAtTop with
    | true =>
      simp only [if_true]
      exact ⟨Or.inr (terminate_finished _ _ h.1), fun _ => trivial⟩
    | false =>
      simp only [Bool.false_eq_true, if_false]
      cases hcomp : p.completed with
      | error e => exact ⟨Or.inr (terminate_finished _ _ h.1), fun _ => rfl⟩
      | ok completed =>
        cases htab : p.table with
        | error e => exact ⟨Or.inr (terminate_finished _ _ h.1), fun _ => rfl⟩
        | ok table =>
          simp only
          rcases sendRows_state p src cursor 0
            (queryEvents table src.buildID cursor src.eventsCap) h with ⟨hret, hrun⟩ | ⟨hret, hfin⟩
          · simp only [hret, Bool.false_eq_true, if_false]
            split_ifs
            · exact ih _ _ hrun
            · exact ⟨Or.inr (terminate_finished _ _ hrun.1), fun _ => rfl⟩
            · exact ih _ _ hrun
            · exact ⟨Or.inr (terminate_finished _ _ hrun.1), fun _ => rfl⟩
          · simp only [hret, if_true]
            exact ⟨Or.inr hfin, fun _ => trivial⟩

theorem call_preserves (s : Source) (c : ConsumerCall) :
    (s.call c).err = s.err ∧ (s.call c).eventsClosed = s.eventsClosed ∧ (s.call c).wg = s.wg ∧
    (s.events = [] → (s.call c).events = []) := by
  cases c with
  | next =>
    cases hev : s.events with
    | nil => cases hcl : s.eventsClosed <;> simp [Source.call, Source.Next, hev, hcl]
    | cons e rest => simp [Source.call, Source.Next, hev]
  | close nc =>
    cases hst : s.stopClosed <;> cases hwg : s.wg <;> simp [Source.call, Source.Close, hst, hwg]

theorem calls_preserves (s : Source) (cs : List ConsumerCall) :
    (s.calls cs).err = s.err ∧ (s.calls cs).eventsClosed = s.eventsClosed
      ∧ (s.calls cs).wg = s.wg ∧ (s.events = [] → (s.calls cs).events = []) := by
  induction cs generalizing s with
  | nil => exact ⟨rfl, rfl, rfl, id⟩
  | cons c cs ih =>
    have h1 := call_preserves s c
    have h2 := ih (s.call c)
    simp only [Source.calls, List.foldl_cons] at h2 ⊢
    exact ⟨h2.1.trans h1.1, h2.2.1.trans h1.2.1, h2.2.2.1.trans h1.2.2.1,
      fun h => h2.2.2.2 (h1.2.2.2 h)⟩

theorem newSource_state (buildID start : Nat) (polls more : List Poll) :
    ((newSQLDBBuildEventSource buildID start polls).running
      ∨ (newSQLDBBuildEventSource buildID start polls).finished) ∧
    ((newSQLDBBuildEventSource buildID start polls).wg = 0 →
      newSQLDBBuildEventSource buildID start (polls ++ more)
        = newSQLDBBuildEventSource buildID start polls) := by
  unfold newSQLDBBuildEventSource
  exact collectEvents_state polls more _ start ⟨rfl, rfl, rfl⟩

/-- C10: once `Next` has returned a terminal condition `e` (with whatever calls of `Next` and
`Close` before it), the envelope it returned is empty and every later `Next`, after any
further calls of `Next` and `Close`, returns the empty envelope and `e` again. The producer
has returned by then, `err` is `e`, no further pass changes the source, and at every earlier
point of the producer's run `err` was nil or already `e`: it is written once. -/
theorem next_terminal_sticky (buildID start : Nat) (polls more : List Poll)
    (before later : List ConsumerCall) (env : Envelope) (e : SourceError) (s1 : Source)
    (h : ((newSQLDBBuildEventSource buildID start polls).calls before).Next
      = some ((env, some e), s1)) :
    env = Envelope.zero ∧
    (s1.calls later).Next = some ((Envelope.zero, some e), s1.calls later) ∧
    (newSQLDBBuildEventSource buildID start polls).wg = 0 ∧
    (newSQLDBBuildEventSource buildID start polls).eventsClosed = true ∧
    (newSQLDBBuildEventSource buildID start polls).err = some e ∧
    newSQLDBBuildEventSource buildID start (polls ++ more)
      = newSQLDBBuildEventSource buildID start polls ∧
    (∀ i, (newSQLDBBuildEventSource buildID start (polls.take i)).err = none
      ∨ (newSQLDBBuildEventSource buildID start (polls.take i)).err = some e) := by
  have hpres := calls_preserves (newSQLDBBuildEventSource buildID start polls) before
  generalize hs0 : (newSQLDBBuildEventSource buildID start polls).calls before = s0 at h hpres
  -- the call took the branch of the closed channel
  have hbranch : s0.events = [] ∧ s0.eventsClosed = true ∧ s0.err = some e
      ∧ env = Envelope.zero ∧ s1 = s0 := by
    unfold Source.Next at h
    cases hev : s0.events with
    | cons x rest => simp [hev] at h
    | nil =>
      cases hcl : s0.eventsClosed with
      | false => simp [hev, hcl] at h
      | true =>
        simp [hev, hcl] at h
        exact ⟨rfl, rfl, h.1.2, h.1.1.symm, h.2.symm⟩
  obtain ⟨hev, hcl, herr, henv, hs1⟩ := hbranch
  have hclosed : (newSQLDBBuildEventSource buildID start polls).eventsClosed = true :=
    hpres.2.1 ▸ hcl
  have herr0 : (newSQLDBBuildEventSource buildID start polls).err = some e := hpres.1 ▸ herr
  have hwg : (newSQLDBBuildEventSource buildID start polls).wg = 0 := by
    rcases (newSource_state buildID start polls []).1 with hrun | hfin
    · rw [hrun.2.1] at hclosed
      exact absurd hclosed (by simp)
    · exact hfin.1
  refine ⟨henv, ?_, hwg, hclosed, herr0, (newSource_state buildID start polls more).2 hwg,
    fun i => ?_⟩
  · have hl := calls_preserves s1 later
    rw [hs1] at hl ⊢
    simp [Source.Next, hl.2.2.2 hev, hl.2.1, hcl, hl.1, herr]
  · rcases (newSource_state buildID start (polls.take i) (polls.drop i)).1 with hrun | hfin
    · exact Or.inl hrun.2.2
    · right
      have := (newSource_state buildID start (polls.take i) (polls.drop i)).2 hfin.1
      rw [List.take_append_drop] at this
      rw [← this]
      exact herr0

/-- Witness for C10: scenario S1 opened at 2; after event c, `Next` returns the end of the
stream, and it does so again after further calls of `Next` and `Close`. -/
theorem next_terminal_sticky_S1 :
    drainedS1.Next
      = some ((Envelope.zero, some SourceError.ErrEndOfBuildEventStream), drainedS1) ∧
    (drainedS1.calls [ConsumerCall.next, ConsumerCall.close none, ConsumerCall.next]).Next
      = some ((Envelope.zero, some SourceError.ErrEndOfBuildEventStream),
          drainedS1.calls [ConsumerCall.next, ConsumerCall.close none, ConsumerCall.next]) :=
  ⟨by decide,
   (next_terminal_sticky 42 2 [Poll.completedBuild tableS1] [] [ConsumerCall.next]
      [ConsumerCall.next, ConsumerCall.close none, ConsumerCall.next]
      Envelope.zero SourceError.ErrEndOfBuildEventStream drainedS1 (by decide)).2.1⟩

theorem calls_next_stopClosed (s : Source) (n : Nat) :
    (s.calls (List.replicate n ConsumerCall.next)).stopClosed = s.stopClosed := by
  induction n generalizing s with
  | zero => rfl
  | succ n ih =>
    rw [List.replicate_succ, Source.calls, List.foldl_cons]
    have := ih (s.call ConsumerCall.next)
    rw [Source.calls] at this
    rw [this]
    cases hev : s.events with
    | nil => cases hcl : s.eventsClosed <;> simp [Source.call, Source.Next, hev, hcl]
    | cons e rest => simp [Source.call, Source.Next, hev]

theorem sendRows_closed_stop (p : Poll) (src : Source) (cursor rowsReturned : Nat)
    (rows : List Row) (h : src.err = none) :
    (sendRows p src cursor rowsReturned rows).src.err
        = some SourceError.ErrBuildEventStreamClosed →
      (sendRows p src cursor rowsReturned rows).src.stopClosed = true := by
  induction rows generalizing src cursor rowsReturned with
  | nil => simp [sendRows, h]
  | cons r rest ih =>
    simp only [sendRows]
    cases hnext : p.nextErr (rowsReturned + 1) with
    | true => simp [h]
    | false =>
      simp only [Bool.false_eq_true, if_false]
      cases hscan : p.scanErr (rowsReturned + 1) with
      | some e => simp [Source.terminate]
      | none =>
        cases hstop : p.stopAtSend (rowsReturned + 1) with
        | true => simp [Source.terminate]
        | false =>
          simp only [Bool.false_eq_true, if_false]
          exact ih { src with events := src.events ++ [r.envelope] } _ _ h

/-- The producer ends with `ErrBuildEventStreamClosed` only on seeing `stop` closed. -/
theorem collectEvents_closed_stop (polls : List Poll) (src : Source) (cursor : Nat)
    (h : src.running) :
    (collectEvents src cursor polls).err = some SourceError.ErrBuildEventStreamClosed →
      (collectEvents src cursor polls).stopClosed = true := by
  induction polls generalizing src cursor with
  | nil => simp [collectEvents, h.2.2]
  | cons p polls ih =>
    simp only [collectEvents]
    cases htop : p.stopAtTop with
    | true => simp [Source.terminate]
    | false =>
      simp only [Bool.false_eq_true, if_false]
      cases hcomp : p.completed with
      | error e => simp [Source.terminate]
      | ok completed =>
        cases htab : p.table with
        | error e => simp [Source.terminate]
        | ok table =>
          simp only
          have hsr := sendRows_closed_stop p src cursor 0
            (queryEvents table src.buildID cursor src.eventsCap) h.2.2
          rcases sendRows_state p src cursor 0
            (queryEvents table src.buildID cursor src.eventsCap) h with ⟨hret, hrun⟩ | ⟨hret, _⟩
          · simp only [hret, Bool.false_eq_true, if_false]
            split_ifs
            · exact ih _ _ hrun
            · simp [Source.terminate]
            · exact ih _ _ hrun
            · simp [Source.terminate]
          · simp only [hret, if_true]
            exact hsr

theorem sendRows_running_stop (p : Poll) (src : Source) (cursor rowsReturned : Nat)
    (rows : List Row) (h : src.stopClosed = false) :
    (sendRows p src cursor rowsReturned rows).returned = false →
      (sendRows p src cursor rowsReturned rows).src.stopClosed = false := by
  induction rows generalizing src cursor rowsReturned with
  | nil => simp [sendRows, h]
  | cons r rest ih =>
    simp only [sendRows]
    cases hnext : p.nextErr (rowsReturned + 1) with
    | true => simp [h]
    | false =>
      simp only [Bool.false_eq_true, if_false]
      cases hscan : p.scanErr (rowsReturned + 1) with
      | some e => simp
      | none =>
        cases hstop : p.stopAtSend (rowsReturned + 1) with
        | true => simp
        | false =>
          simp only [Bool.false_eq_true, if_false]
          exact ih { src with events := src.events ++ [r.envelope] } _ _ h

/-- While the producer runs it has not seen `stop` closed. -/
theorem collectEvents_running_stop (polls : List Poll) (src : Source) (cursor : Nat)
    (h : src.running) (hs : src.stopClosed = false) :
    (collectEvents src cursor polls).running →
      (collectEvents src cursor polls).stopClosed = false := by
  induction polls generalizing src cursor with
  | nil => simp [collectEvents, hs]
  | cons p polls ih =>
    simp only [collectEvents]
    cases htop : p.stopAtTop with
    | true => simp [Source.terminate, Source.running]
    | false =>
      simp only [Bool.false_eq_true, if_false]
      cases hcomp : p.completed with
      | error e => simp [Source.terminate, Source.running]
      | ok completed =>
        cases htab : p.table with
        | error e => simp [Source.terminate, Source.running]
        | ok table =>
          simp only
          have hsr := sendRows_running_stop p src cursor 0
            (queryEvents table src.buildID cursor src.eventsCap) hs
          rcases sendRows_state p src cursor 0
            (queryEvents table src.buildID cursor src.eventsCap) h with ⟨hret, hrun⟩ | ⟨hret, hfin⟩
          · simp only [hret, Bool.false_eq_true, if_false]
            split_ifs
            · exact ih _ _ hrun (hsr hret)
            · simp [Source.terminate, Source.running]
            · exact ih _ _ hrun (hsr hret)
            · simp [Source.terminate, Source.running]
          · simp only [hret, if_true]
            intro hrun
            exact absurd (hrun.2.1.symm.trans hfin.2.1) (by simp)

/-- C11, as stated, fails. (1) The producer of `drainedS1` has ended with the end of the
stream and nothing is buffered: `Close` returns nil and the next `Next` returns
`ErrEndOfBuildEventStream`. (2) Scenario S1 opened at 0 with all three events still
buffered: after `Close` has returned, `Next` returns a, b, c with a nil error. (3) The
producer is stopped by the close while it waits for a notification, three events being
buffered: after `Close`, `Next` returns the three events before `ErrBuildEventStreamClosed`. -/
theorem next_after_close_not_stream_closed :
    (drainedS1.Close none).1 = some none ∧
    (drainedS1.Close none).2.nextN 2
      = [(Envelope.zero, some SourceError.ErrEndOfBuildEventStream),
         (Envelope.zero, some SourceError.ErrEndOfBuildEventStream)] ∧
    ((newSQLDBBuildEventSource 42 0 [Poll.completedBuild tableS1]).Close none).1 = some none ∧
    ((newSQLDBBuildEventSource 42 0 [Poll.completedBuild tableS1]).Close none).2.nextN 4
      = [({ Data := some "a", Event := "log", Version := "1.0" }, none),
         ({ Data := some "b", Event := "log", Version := "1.0" }, none),
         ({ Data := some "c", Event := "log", Version := "1.0" }, none),
         (Envelope.zero, some SourceError.ErrEndOfBuildEventStream)] ∧
    ((newSQLDBBuildEventSource 42 0 [Poll.closedWhileWaiting tableS1]).Close none).1
      = some none ∧
    ((newSQLDBBuildEventSource 42 0 [Poll.closedWhileWaiting tableS1]).Close none).2.nextN 4
      = [({ Data := some "a", Event := "log", Version := "1.0" }, none),
         ({ Data := some "b", Event := "log", Version := "1.0" }, none),
         ({ Data := some "c", Event := "log", Version := "1.0" }, none),
         (Envelope.zero, some SourceError.ErrBuildEventStreamClosed)] := by
  decide

/-- C11 (amended): once `Close` has returned (after any number of `Next` calls), the producer
has returned and `stop` is closed; the following `Next` calls return the envelopes still
buffered, each with a nil error, and every call after them returns the empty envelope and the
terminal condition the producer ended with. That condition is `ErrBuildEventStreamClosed`
only if the producer returned on seeing `stop` closed; otherwise it is the one it had set
before (`ErrEndOfBuildEventStream` or a database error). -/
theorem next_after_close (buildID start : Nat) (polls : List Poll) (n : Nat)
    (notifierClose r : Option String)
    (h : (((newSQLDBBuildEventSource buildID start polls).calls
        (List.replicate n ConsumerCall.next)).Close notifierClose).1 = some r) :
    (((newSQLDBBuildEventSource buildID start polls).calls
        (List.replicate n ConsumerCall.next)).Close notifierClose).2.wg = 0 ∧
    (((newSQLDBBuildEventSource buildID start polls).calls
        (List.replicate n ConsumerCall.next)).Close notifierClose).2.stopClosed = true ∧
    ∃ e, (newSQLDBBuildEventSource buildID start polls).err = some e ∧
      (e = SourceError.ErrBuildEventStreamClosed →
        (newSQLDBBuildEventSource buildID start polls).stopClosed = true) ∧
      ∀ j, (((newSQLDBBuildEventSource buildID start polls).calls
          (List.replicate n ConsumerCall.next)).Close notifierClose).2.nextN
          ((((newSQLDBBuildEventSource buildID start polls).calls
            (List.replicate n ConsumerCall.next)).Close notifierClose).2.events.length + j)
        = (((newSQLDBBuildEventSource buildID start polls).calls
            (List.replicate n ConsumerCall.next)).Close notifierClose).2.events.map
            (fun ev => (ev, none))
          ++ List.replicate j (Envelope.zero, some e) := by
  have hpres := calls_preserves (newSQLDBBuildEventSource buildID start polls)
    (List.replicate n ConsumerCall.next)
  have hstop := calls_next_stopClosed (newSQLDBBuildEventSource buildID start polls) n
  have hstate := (newSource_state buildID start polls []).1
  have hcs : (newSQLDBBuildEventSource buildID start polls).err
      = some SourceError.ErrBuildEventStreamClosed →
      (newSQLDBBuildEventSource buildID start polls).stopClosed = true := by
    unfold newSQLDBBuildEventSource
    exact collectEvents_closed_stop polls _ start ⟨rfl, rfl, rfl⟩
  have hrs : (newSQLDBBuildEventSource buildID start polls).running →
      (newSQLDBBuildEventSource buildID start polls).stopClosed = false := by
    unfold newSQLDBBuildEventSource
    exact collectEvents_running_stop polls _ start ⟨rfl, rfl, rfl⟩ rfl
  generalize (newSQLDBBuildEventSource buildID start polls).calls
    (List.replicate n ConsumerCall.next) = s0 at h hpres hstop ⊢
  generalize newSQLDBBuildEventSource buildID start polls = s at hpres hstop hstate hcs hrs ⊢
  -- the producer has returned
  have hfin : s.finished := by
    rcases hstate with hrun | hfin
    · exfalso
      have hst : s0.stopClosed = false := hstop.trans (hrs hrun)
      have hwg : s0.wg = 1 := hpres.2.2.1.trans hrun.1
      simp [Source.Close, hst, hwg] at h
    · exact hfin
  have hwg0 : s0.wg = 0 := hpres.2.2.1.trans hfin.1
  have hcl0 : s0.eventsClosed = true := hpres.2.1.trans hfin.2.1
  obtain ⟨e, he⟩ := Option.ne_none_iff_exists'.1 hfin.2.2
  have herr0 : s0.err = some e := hpres.1.trans he
  have hclose : (s0.Close notifierClose).2.wg = 0 ∧ (s0.Close notifierClose).2.stopClosed = true
      ∧ (s0.Close notifierClose).2.eventsClosed = true
      ∧ (s0.Close notifierClose).2.err = some e
      ∧ (s0.Close notifierClose).2.events = s0.events := by
    unfold Source.Close
    cases hst : s0.stopClosed <;> simp [hst, hwg0, hcl0, herr0]
  refine ⟨hclose.1, hclose.2.1, e, he, fun hE => hcs (hE ▸ he), fun j => ?_⟩
  rw [nextN_closed _ _ hclose.2.2.1, hclose.2.2.2.1]
  generalize (s0.Close notifierClose).2.events = evs
  rw [List.take_of_length_le (by omega)]
  simp
/-- Witness for C11 (amended): `Close` on `drainedS1` returns; the producer has returned and
`stop` is closed. -/
theorem next_after_close_S1 :
    (drainedS1.Close none).1 = some none ∧
    (drainedS1.Close none).2.wg = 0 ∧
    (drainedS1.Close none).2.stopClosed = true :=
  ⟨by decide,
   (next_after_close 42 2 [Poll.completedBuild tableS1] 1 none none (by decide)).1,
   (next_after_close 42 2 [Poll.completedBuild tableS1] 1 none none (by decide)).2.1⟩

theorem take_length_take {α : Type} (l : List α) (b : Nat) :
    l.take (l.take b).length = l.take b := by
  rw [List.length_take]
  by_cases h : b ≤ l.length
  · rw [Nat.min_eq_left h]
  · rw [Nat.min_eq_right (by omega), List.take_of_length_le (Nat.le_refl _),
      List.take_of_length_le (by omega)]

theorem drop_take_append {α : Type} (l rows : List α) (k c : Nat) (hk : k ≤ c)
    (hrows : l.length ≤ c → rows = []) :
    (l.take c ++ rows).drop k = (l.take c).drop k ++ rows := by
  by_cases h : k ≤ (l.take c).length
  · exact List.drop_append_of_le_length h
  · rw [List.length_take] at h
    have hl : l.length ≤ c := by omega
    rw [hrows hl, List.append_nil, List.append_nil]

/-- A batch read at `cursor` from a snapshot that is a beginning of the final log extends what
was sent so far to the first `cursor + rows` events of the final log. -/
theorem batch_extends {α : Type} (final snap : List α) (k c b : Nat) (hk : k ≤ c)
    (hsnap : snap <+: final) :
    (final.take (c + ((snap.drop c).take b).length)).drop k
      = (final.take c).drop k ++ (snap.drop c).take b := by
  obtain ⟨rest, rfl⟩ := hsnap
  have hrows : (snap.drop c).take b
      = (((snap ++ rest).drop c).take ((snap.drop c).take b).length) := by
    rw [List.drop_append_eq_append_drop,
      List.take_append_of_le_length (by rw [List.length_take]; omega), take_length_take]
  rw [List.take_add, ← hrows]
  apply drop_take_append _ _ _ _ hk
  intro hl
  rw [List.length_append] at hl
  rw [List.drop_eq_nil_of_le (by omega)]
  exact List.take_nil

theorem last_batch_completes {α : Type} (final : List α) (k c b : Nat) (hk : k ≤ c)
    (hshort : ((final.drop c).take b).length ≠ b) :
    (final.take c).drop k ++ (final.drop c).take b = final.drop k := by
  have hall : (final.drop c).take b = final.drop c := by
    apply List.take_of_length_le
    rw [List.length_take] at hshort
    omega
  rw [hall, ← drop_take_append final (final.drop c) k c hk
    (fun hl => List.drop_eq_nil_of_le hl), List.take_append_drop]

/-- The loop over the rows counts at most the rows of the batch. -/
theorem sendRows_rowsReturned_le (p : Poll) (src : Source) (cursor rowsReturned : Nat)
    (rows : List Row) :
    (sendRows p src cursor rowsReturned rows).rowsReturned ≤ rowsReturned + rows.length := by
  induction rows generalizing src cursor rowsReturned with
  | nil => simp [sendRows]
  | cons r rest ih =>
    simp only [sendRows]
    cases hnext : p.nextErr (rowsReturned + 1) with
    | true => simp
    | false =>
      simp only [Bool.false_eq_true, if_false]
      cases hscan : p.scanErr (rowsReturned + 1) with
      | some e => simp
      | none =>
        cases hstop : p.stopAtSend (rowsReturned + 1) with
        | true => simp
        | false =>
          simp only [Bool.false_eq_true, if_false]
          have := ih { src with events := src.events ++ [r.envelope] } (cursor + 1)
            (rowsReturned + 1)
          rw [List.length_cons]
          omega

/-- A return from inside the loop over the rows never sets the end of the stream. -/
theorem sendRows_returned_err (p : Poll) (src : Source) (cursor rowsReturned : Nat)
    (rows : List Row) :
    (sendRows p src cursor rowsReturned rows).returned = true →
      (sendRows p src cursor rowsReturned rows).src.err
        ≠ some SourceError.ErrEndOfBuildEventStream := by
  induction rows generalizing src cursor rowsReturned with
  | nil => simp [sendRows]
  | cons r rest ih =>
    simp only [sendRows]
    cases hnext : p.nextErr (rowsReturned + 1) with
    | true => simp
    | false =>
      simp only [Bool.false_eq_true, if_false]
      cases hscan : p.scanErr (rowsReturned + 1) with
      | some e => simp [Source.terminate]
      | none =>
        cases hstop : p.stopAtSend (rowsReturned + 1) with
        | true => simp [Source.terminate]
        | false =>
          simp only [Bool.false_eq_true, if_false]
          exact ih { src with events := src.events ++ [r.envelope] } _ _

/-- When `rows.Next()` stops only at the end of the rows, a loop that was not left by a return
has sent every row of the batch. -/
theorem sendRows_result (p : Poll) (src : Source) (cursor rowsReturned : Nat)
    (rows : List Row) (hnext : ∀ j, p.nextErr j = false) :
    (sendRows p src cursor rowsReturned rows).returned = false →
      (sendRows p src cursor rowsReturned rows).src
          = { src with events := src.events ++ rows.map Row.envelope }
        ∧ (sendRows p src cursor rowsReturned rows).cursor = cursor + rows.length
        ∧ (sendRows p src cursor rowsReturned rows).rowsReturned
          = rowsReturned + rows.length := by
  induction rows generalizing src cursor rowsReturned with
  | nil => simp [sendRows]
  | cons r rest ih =>
    simp only [sendRows, hnext, Bool.false_eq_true, if_false]
    cases hscan : p.scanErr (rowsReturned + 1) with
    | some e => simp [Source.terminate]
    | none =>
      cases hstop : p.stopAtSend (rowsReturned + 1) with
      | true => simp [Source.terminate]
      | false =>
        simp only [Bool.false_eq_true, if_false]
        have := ih { src with events := src.events ++ [r.envelope] } (cursor + 1)
          (rowsReturned + 1)
        intro hret
        have h1 := this hret
        refine ⟨?_, ?_, ?_⟩
        · rw [h1.1]
          simp
        · rw [h1.2.1, List.length_cons]
          omega
        · rw [h1.2.2, List.length_cons]
          omega

/-- The pass in which the producer sets `ErrEndOfBuildEventStream` read `completed = true`
and then counted fewer than `batchSize` rows of the batch. -/
theorem end_of_stream_pass (src : Source) (cursor : Nat) (p : Poll) (h : src.running)
    (hEOS : (collectEvents src cursor [p]).err = some SourceError.ErrEndOfBuildEventStream) :
    p.stopAtTop = false ∧ p.completed = Except.ok true ∧
    ∃ t, p.table = Except.ok t
      ∧ (sendRows p src cursor 0
          (queryEvents t src.buildID cursor src.eventsCap)).rowsReturned < src.eventsCap := by
  simp only [collectEvents] at hEOS
  cases htop : p.stopAtTop with
  | true => simp [htop, Source.terminate] at hEOS
  | false =>
    simp only [htop, Bool.false_eq_true, if_false] at hEOS
    cases hcomp : p.completed with
    | error e => simp [hcomp, Source.terminate] at hEOS
    | ok completed =>
      cases htab : p.table with
      | error e => simp [hcomp, htab, Source.terminate] at hEOS
      | ok table =>
        simp only [hcomp, htab] at hEOS
        have hle := sendRows_rowsReturned_le p src cursor 0
          (queryEvents table src.buildID cursor src.eventsCap)
        have hlen : (queryEvents table src.buildID cursor src.eventsCap).length
            ≤ src.eventsCap := by
          unfold queryEvents
          rw [List.length_take]
          omega
        rcases sendRows_state p src cursor 0
          (queryEvents table src.buildID cursor src.eventsCap) h with ⟨hret, hrun⟩ | ⟨hret, _⟩
        · simp only [hret, Bool.false_eq_true, if_false] at hEOS
          split_ifs at hEOS with h1 h2 h3
          · simp [hrun.2.2] at hEOS
          · refine ⟨rfl, by rw [h2], table, rfl, ?_⟩
            have : (sendRows p src cursor 0
                (queryEvents table src.buildID cursor src.eventsCap)).rowsReturned
                ≠ src.eventsCap := by simpa using h1
            omega
          · simp [hrun.2.2] at hEOS
          · simp [Source.terminate] at hEOS
        · simp only [hret, if_true] at hEOS
          exact absurd hEOS (sendRows_returned_err p src cursor 0 _ hret)

/-- When every snapshot read is a beginning of the final log, and is the final log whenever
`completed` was read as true, and `rows.Next()` stops only at the end of the rows, a producer
that ends with the end of the stream has sent the final log from its start position on. -/
theorem collectEvents_end_of_stream (final : List Row) (k : Nat) (polls : List Poll)
    (src : Source) (cursor : Nat) (hrun : src.running) (hk : k ≤ cursor)
    (hinv : src.events
      = (((buildEvents final src.buildID).take cursor).drop k).map Row.envelope)
    (hsnaps : ∀ p ∈ polls, ∀ t, p.table = Except.ok t →
      buildEvents t src.buildID <+: buildEvents final src.buildID)
    (hdone : ∀ p ∈ polls, ∀ t, p.completed = Except.ok true → p.table = Except.ok t →
      buildEvents t src.buildID = buildEvents final src.buildID)
    (hnext : ∀ p ∈ polls, ∀ j, p.nextErr j = false)
    (hEOS : (collectEvents src cursor polls).err
      = some SourceError.ErrEndOfBuildEventStream) :
    (collectEvents src cursor polls).events
      = ((buildEvents final src.buildID).drop k).map Row.envelope := by
  induction polls generalizing src cursor with
  | nil => simp [collectEvents, hrun.2.2] at hEOS
  | cons p polls ih =>
    simp only [collectEvents] at hEOS ⊢
    cases htop : p.stopAtTop with
    | true => simp [htop, Source.terminate] at hEOS
    | false =>
      simp only [htop, Bool.false_eq_true, if_false] at hEOS ⊢
      cases hcomp : p.completed with
      | error e => simp [hcomp, Source.terminate] at hEOS
      | ok completed =>
        cases htab : p.table with
        | error e => simp [hcomp, htab, Source.terminate] at hEOS
        | ok table =>
          simp only [hcomp, htab] at hEOS ⊢
          have hq : queryEvents table src.buildID cursor src.eventsCap
              = ((buildEvents table src.buildID).drop cursor).take src.eventsCap := rfl
          have hres := sendRows_result p src cursor 0
            (queryEvents table src.buildID cursor src.eventsCap)
            (hnext p (List.mem_cons_self _ _))
          have hstate := sendRows_state p src cursor 0
            (queryEvents table src.buildID cursor src.eventsCap) hrun
          have hpre := hsnaps p (List.mem_cons_self _ _) table htab
          cases hret : (sendRows p src cursor 0
              (queryEvents table src.buildID cursor src.eventsCap)).returned with
          | true =>
            simp only [hret, if_true] at hEOS
            exact absurd hEOS (sendRows_returned_err p src cursor 0 _ hret)
          | false =>
            have hr := hres hret
            have hrun2 : (sendRows p src cursor 0
                (queryEvents table src.buildID cursor src.eventsCap)).src.running := by
              rcases hstate with ⟨_, h2⟩ | ⟨h1, _⟩
              · exact h2
              · rw [hret] at h1
                exact absurd h1 (by simp)
            -- the state after the batch satisfies the invariant again
            have hinv2 : (sendRows p src cursor 0
                (queryEvents table src.buildID cursor src.eventsCap)).src.events
                = (((buildEvents final src.buildID).take
                    (cursor + (queryEvents table src.buildID cursor src.eventsCap).length)).drop
                    k).map Row.envelope := by
              rw [hr.1, hq, batch_extends _ _ k cursor src.eventsCap hk hpre, List.map_append,
                ← hinv]
            have hbid : (sendRows p src cursor 0
                (queryEvents table src.buildID cursor src.eventsCap)).src.buildID
                = src.buildID := by rw [hr.1]
            have hrec := ih (sendRows p src cursor 0
                (queryEvents table src.buildID cursor src.eventsCap)).src
              (cursor + (queryEvents table src.buildID cursor src.eventsCap).length) hrun2
              (by omega) (by rw [hbid]; exact hinv2)
              (by rw [hbid]; exact fun q hq => hsnaps q (List.mem_cons_of_mem _ hq))
              (by rw [hbid]; exact fun q hq => hdone q (List.mem_cons_of_mem _ hq))
              (fun q hq => hnext q (List.mem_cons_of_mem _ hq))
            rw [hbid] at hrec
            simp only [hret, Bool.false_eq_true, if_false, hr.2.2, hr.2.1, Nat.zero_add]
              at hEOS ⊢
            split_ifs at hEOS ⊢ with h1 h2 h3
            · exact hrec hEOS
            · have hfinal := hdone p (List.mem_cons_self _ _) table (by rw [hcomp, h2]) htab
              have hshort : (((buildEvents final src.buildID).drop cursor).take
                  src.eventsCap).length ≠ src.eventsCap := by
                rw [← hfinal, ← hq]
                simpa using h1
              simp only [Source.terminate]
              rw [hr.1]
              simp only
              rw [hinv, hq, hfinal, ← List.map_append,
                last_batch_completes _ k cursor src.eventsCap hk hshort]
            · exact hrec hEOS
            · simp [Source.terminate] at hEOS

/-- The read order at work. The log of the build is append-only and receives no event after
the build is completed: in every pass the `completed` query ran against a state `first` of the
database and the batch query against a later state `second`, the events of `first` are a
beginning of those of `second`, these a beginning of the final log, and `first` holds the
final log if the build is completed in it. When moreover `rows.Next()` stops only at the end
of the rows, a source opened at `k` that ends with `ErrEndOfBuildEventStream` has sent exactly
the events of the final log from position `k` on, in order, and `Next` returns them before the
end of the stream. -/
theorem end_of_stream_complete_of_reads (buildID k : Nat) (polls : List Poll)
    (final : List Row)
    (hreads : ∀ p ∈ polls, ∃ first second : DbState,
      p.reads buildID first second = true ∧
      buildEvents first.table buildID <+: buildEvents second.table buildID ∧
      buildEvents second.table buildID <+: buildEvents final buildID ∧
      (first.completed buildID = true →
        buildEvents first.table buildID = buildEvents final buildID))
    (hnext : ∀ p ∈ polls, ∀ j, p.nextErr j = false)
    (hEOS : (newSQLDBBuildEventSource buildID k polls).err
      = some SourceError.ErrEndOfBuildEventStream) :
    (newSQLDBBuildEventSource buildID k polls).events
      = ((buildEvents final buildID).drop k).map Row.envelope ∧
    ∀ j, (newSQLDBBuildEventSource buildID k polls).nextN
          (((buildEvents final buildID).drop k).length + j)
        = ((buildEvents final buildID).drop k).map (fun r => (r.envelope, none))
          ++ List.replicate j (Envelope.zero, some SourceError.ErrEndOfBuildEventStream) := by
  have hsnaps : ∀ p ∈ polls, ∀ t, p.table = Except.ok t →
      buildEvents t buildID <+: buildEvents final buildID := by
    intro p hp t ht
    obtain ⟨first, second, hr, _, h2, _⟩ := hreads p hp
    simp only [Poll.reads, ht, Bool.and_eq_true, beq_iff_eq] at hr
    rw [hr.2]
    exact h2
  have hdone : ∀ p ∈ polls, ∀ t, p.completed = Except.ok true → p.table = Except.ok t →
      buildEvents t buildID = buildEvents final buildID := by
    intro p hp t hc ht
    obtain ⟨first, second, hr, h1, h2, h3⟩ := hreads p hp
    simp only [Poll.reads, hc, ht, Bool.and_eq_true, beq_iff_eq] at hr
    rw [hr.2]
    apply h2.eq_of_length
    have hf := h3 hr.1.symm
    have l1 := h1.length_le
    have l2 := h2.length_le
    rw [hf] at l1
    omega
  have hev : (newSQLDBBuildEventSource buildID k polls).events
      = ((buildEvents final buildID).drop k).map Row.envelope := by
    unfold newSQLDBBuildEventSource at hEOS ⊢
    refine collectEvents_end_of_stream final k polls _ k ⟨rfl, rfl, rfl⟩ (Nat.le_refl k) ?_
      hsnaps hdone hnext hEOS
    simp only
    rw [List.drop_eq_nil_of_le (by rw [List.length_take]; omega)]
    rfl
  refine ⟨hev, fun j => ?_⟩
  have hfin : (newSQLDBBuildEventSource buildID k polls).eventsClosed = true := by
    rcases (newSource_state buildID k polls []).1 with hrun | hfin
    · rw [hrun.2.2] at hEOS
      exact absurd hEOS (by simp)
    · exact hfin.2.1
  rw [nextN_closed _ _ hfin, hev, hEOS]
  generalize (buildEvents final buildID).drop k = evs
  rw [List.take_of_length_le (by simp), List.length_map]
  simp

/-- Scenario S2 in short: the source is opened at 0 while the build holds events 1 and 2 and
is not completed; event 3 and the completion are written before the second pass, which reads
`completed = true` and then the last event. The source ends with the end of the stream after
a, b, c. -/
theorem end_of_stream_complete_of_reads_S1 :
    (newSQLDBBuildEventSource 42 0
        [Poll.live tableS1Early, Poll.completedBuild tableS1]).err
      = some SourceError.ErrEndOfBuildEventStream ∧
    (newSQLDBBuildEventSource 42 0
        [Poll.live tableS1Early, Poll.completedBuild tableS1]).events
      = [{ Data := some "a", Event := "log", Version := "1.0" },
         { Data := some "b", Event := "log", Version := "1.0" },
         { Data := some "c", Event := "log", Version := "1.0" }] :=
  ⟨by decide,
   (end_of_stream_complete_of_reads 42 0
      [Poll.live tableS1Early, Poll.completedBuild tableS1] tableS1
      (by
        intro p hp
        simp only [List.mem_cons, List.mem_singleton, List.not_mem_nil, or_false] at hp
        rcases hp with rfl | rfl
        · exact ⟨{ table := tableS1Early, completed := fun _ => false },
            { table := tableS1Early, completed := fun _ => false },
            by decide, by decide, by decide, by decide⟩
        · exact ⟨{ table := tableS1, completed := fun _ => true },
            { table := tableS1, completed := fun _ => true },
            by decide, by decide, by decide, by decide⟩)
      (by
        intro p hp j
        simp only [List.mem_cons, List.mem_singleton, List.not_mem_nil, or_false] at hp
        rcases hp with rfl | rfl <;> rfl)
      (by decide)).1⟩

/-- C12 (evaluation at the failing input): build 42 is completed and its log holds the events
a, b, c (scenario S1). A source is opened at 0; its first pass reads `completed = true` and
then the batch, but `rows.Next()` returns false after the first row because of an error, which
`collectEvents` never asks `rows.Err()` for. The loop has counted 1 row, fewer than
`batchSize`, so the producer sets `ErrEndOfBuildEventStream`: `Next` returns a and then the
end of the stream, the events b and c are missing. Had the iteration not failed the source
would have returned a, b, c before the end of the stream, and when it is `rows.Scan` that
fails on the second row the source ends with that error instead. -/
theorem end_of_stream_with_events_missing :
    (newSQLDBBuildEventSource 42 0 [Poll.rowsCutShort tableS1 1]).err
      = some SourceError.ErrEndOfBuildEventStream ∧
    (newSQLDBBuildEventSource 42 0 [Poll.rowsCutShort tableS1 1]).nextN 3
      = [({ Data := some "a", Event := "log", Version := "1.0" }, none),
         (Envelope.zero, some SourceError.ErrEndOfBuildEventStream),
         (Envelope.zero, some SourceError.ErrEndOfBuildEventStream)] ∧
    (Poll.rowsCutShort tableS1 1).completed = Except.ok true ∧
    (Poll.rowsCutShort tableS1 1).table = Except.ok tableS1 ∧
    ((buildEvents tableS1 42).drop 0).map Row.envelope
      = [{ Data := some "a", Event := "log", Version := "1.0" },
         { Data := some "b", Event := "log", Version := "1.0" },
         { Data := some "c", Event := "log", Version := "1.0" }] ∧
    (newSQLDBBuildEventSource 42 0 [Poll.completedBuild tableS1]).nextN 4
      = [({ Data := some "a", Event := "log", Version := "1.0" }, none),
         ({ Data := some "b", Event := "log", Version := "1.0" }, none),
         ({ Data := some "c", Event := "log", Version := "1.0" }, none),
         (Envelope.zero, some SourceError.ErrEndOfBuildEventStream)] ∧
    (newSQLDBBuildEventSource 42 0
        [{ Poll.completedBuild tableS1 with
            scanErr := fun j => if j = 2 then some "scan" else none }]).nextN 3
      = [({ Data := some "a", Event := "log", Version := "1.0" }, none),
         (Envelope.zero, some (SourceError.dbError "scan")),
         (Envelope.zero, some (SourceError.dbError "scan"))] := by
  refine ⟨by decide, by decide, rfl, rfl, by decide, by decide, by decide⟩

end Db

namespace Builder

/-! ### Theorems about the builder -/

theorem Lookup_name (rs : Resources) (n : String) (r : Resource)
    (h : rs.Lookup n = some r) : r.Name = n := by
  have := List.find?_some h
  simpa using this

theorem Lookup_UpdateResource_self (rs : Resources) (x : Resource) :
    (rs.UpdateResource x).Lookup x.Name = some x := by
  unfold Resources.UpdateResource
  split_ifs with hp
  · unfold Resources.Lookup at hp ⊢
    induction rs with
    | nil => simp at hp
    | cons r t ih =>
      by_cases hr : r.Name = x.Name
      · simp [hr]
      · rw [List.find?_cons_of_neg _ (by simpa using hr)] at hp
        have := ih hp
        rw [List.map_cons, if_neg (by simpa using hr),
          List.find?_cons_of_neg _ (by simpa using hr)]
        exact this
  · unfold Resources.Lookup at hp ⊢
    have hnone : List.find? (fun r => r.Name == x.Name) rs = none := by
      cases hf : List.find? (fun r => r.Name == x.Name) rs with
      | none => rfl
      | some v => simp [hf] at hp
    rw [List.find?_append, hnone]
    simp

theorem Lookup_UpdateResource_of_ne (rs : Resources) (x : Resource) (n : String)
    (hn : n ≠ x.Name) : (rs.UpdateResource x).Lookup n = rs.Lookup n := by
  unfold Resources.UpdateResource
  split_ifs with hp
  · unfold Resources.Lookup
    clear hp
    induction rs with
    | nil => rfl
    | cons r t ih =>
      by_cases hr : r.Name = x.Name
      · have hrn : ¬ r.Name = n := fun h => hn (h.symm.trans hr)
        rw [List.map_cons, if_pos (by simpa using hr),
          List.find?_cons_of_neg _ (by simpa using Ne.symm hn),
          List.find?_cons_of_neg _ (by simpa using hrn)]
        exact ih
      · rw [List.map_cons, if_neg (by simpa using hr)]
        by_cases hrn : r.Name = n
        · rw [List.find?_cons_of_pos _ (by simpa using hrn),
            List.find?_cons_of_pos _ (by simpa using hrn)]
        · rw [List.find?_cons_of_neg _ (by simpa using hrn),
            List.find?_cons_of_neg _ (by simpa using hrn)]
          exact ih
  · unfold Resources.Lookup
    rw [List.find?_append]
    have : List.find? (fun r => r.Name == n) [x] = none := by
      simp [Ne.symm hn]
    rw [this]
    simp

/-- One pass of the loop of `computeResources` that does not return: the input has an
override, which is bound; or it is known and has no `passed` constraint; or it is known and
the storage returned a non-empty list, whose last element is bound and the query logged.
The pass does not depend on the inputs that follow. -/
theorem computeResourcesLoop_cons (b : builder) (ov : Resources) (input : Input)
    (rest : List Input) (rs : Resources) (log : List Effect) (res : Resources)
    (log2 : List Effect)
    (h : computeResourcesLoop b ov (input :: rest) rs log = (Except.ok res, log2)) :
    ∃ rs1 log1,
      (∀ rest2, computeResourcesLoop b ov (input :: rest2) rs log
        = computeResourcesLoop b ov rest2 rs1 log1) ∧
      ((∃ o, ov.Lookup input.Resource = some o ∧ rs1 = rs.UpdateResource o ∧ log1 = log) ∨
       (ov.Lookup input.Resource = none ∧ (∃ r, b.resources.Lookup input.Resource = some r)
          ∧ input.Passed = none ∧ rs1 = rs ∧ log1 = log) ∨
       (ov.Lookup input.Resource = none ∧
          ∃ r passed outputs v, b.resources.Lookup input.Resource = some r
            ∧ input.Passed = some passed
            ∧ b.world.GetCommonOutputs passed input.Resource = Except.ok outputs
            ∧ outputs.getLast? = some v
            ∧ rs1 = rs.UpdateResource { r with Source := v }
            ∧ log1 = log ++ [Effect.getCommonOutputs passed input.Resource])) := by
  simp only [computeResourcesLoop] at h
  cases hov : ov.Lookup input.Resource with
  | some o =>
    refine ⟨rs.UpdateResource o, log, fun rest2 => ?_, Or.inl ⟨o, rfl, rfl, rfl⟩⟩
    simp only [computeResourcesLoop, hov]
  | none =>
    simp only [hov] at h
    cases hbase : b.resources.Lookup input.Resource with
    | none => simp [hbase] at h
    | some r =>
      simp only [hbase] at h
      cases hpassed : input.Passed with
      | none =>
        refine ⟨rs, log, fun rest2 => ?_, Or.inr (Or.inl ⟨rfl, ⟨r, rfl⟩, rfl, rfl, rfl⟩)⟩
        simp only [computeResourcesLoop, hov, hbase, hpassed]
      | some passed =>
        simp only [hpassed] at h
        cases hdb : b.world.GetCommonOutputs passed input.Resource with
        | error e => simp [hdb] at h
        | ok outputs =>
          simp only [hdb] at h
          by_cases hlen : outputs.length = 0
          · simp [hlen] at h
          · have hlt : outputs.length - 1 < outputs.length := by omega
            refine ⟨rs.UpdateResource { r with Source := outputs.get ⟨outputs.length - 1, hlt⟩ },
              log ++ [Effect.getCommonOutputs passed input.Resource], fun rest2 => ?_,
              Or.inr (Or.inr ⟨rfl, r, passed, outputs, _, rfl, rfl, hdb, ?_, rfl, rfl⟩)⟩
            · simp only [computeResourcesLoop, hov, hbase, hpassed, hdb, dif_neg hlen]
            · rw [List.getLast?_eq_getElem?, List.getElem?_eq_getElem hlt]
              rfl

theorem computeResourcesLoop_rest (b : builder) (ov : Resources) (input : Input)
    (rest : List Input) (rs : Resources) (log : List Effect) (res : Resources)
    (log2 : List Effect) (rs1 : Resources) (log1 : List Effect)
    (h : computeResourcesLoop b ov (input :: rest) rs log = (Except.ok res, log2))
    (heq : ∀ rest2, computeResourcesLoop b ov (input :: rest2) rs log
        = computeResourcesLoop b ov rest2 rs1 log1) :
    computeResourcesLoop b ov rest rs1 log1 = (Except.ok res, log2) := by
  rw [← heq rest]
  exact h

/-- A name bound to its override stays bound to it. -/
theorem computeResourcesLoop_keeps_override (b : builder) (ov : Resources)
    (inputs : List Input) (rs : Resources) (log : List Effect) (res : Resources)
    (log2 : List Effect)
    (h : computeResourcesLoop b ov inputs rs log = (Except.ok res, log2))
    (n : String) (o : Resource) (hov : ov.Lookup n = some o) (hrs : rs.Lookup n = some o) :
    res.Lookup n = some o := by
  induction inputs generalizing rs log with
  | nil =>
    simp only [computeResourcesLoop, Prod.mk.injEq, Except.ok.injEq] at h
    rw [← h.1]
    exact hrs
  | cons input rest ih =>
    obtain ⟨rs1, log1, heq, hstep⟩ := computeResourcesLoop_cons b ov input rest rs log res log2 h
    have hrest := computeResourcesLoop_rest b ov input rest rs log res log2 rs1 log1 h heq
    refine ih rs1 log1 hrest ?_
    rcases hstep with ⟨o2, ho2, hrs1, _⟩ | ⟨_, _, _, hrs1, _⟩ |
      ⟨hnone, r, passed, outputs, v, hbase, _, _, _, hrs1, _⟩
    · rw [hrs1]
      by_cases hn : input.Resource = n
      · rw [hn, hov] at ho2
        have ho : o2 = o := (Option.some.inj ho2).symm
        rw [ho, ← Lookup_name ov n o hov]
        exact Lookup_UpdateResource_self rs o
      · rw [Lookup_UpdateResource_of_ne rs o2 n
          (by rw [Lookup_name ov _ o2 ho2]; exact Ne.symm hn)]
        exact hrs
    · rw [hrs1]
      exact hrs
    · rw [hrs1]
      have hn : n ≠ input.Resource := by
        intro hn
        rw [← hn, hov] at hnone
        exact absurd hnone (by simp)
      rw [Lookup_UpdateResource_of_ne rs _ n
        (by
          show n ≠ r.Name
          rw [Lookup_name b.resources _ r hbase]
          exact hn)]
      exact hrs

/-- The storage is not queried for a name that has an override. -/
theorem computeResourcesLoop_no_query (b : builder) (ov : Resources)
    (inputs : List Input) (rs : Resources) (log : List Effect) (res : Resources)
    (log2 : List Effect)
    (h : computeResourcesLoop b ov inputs rs log = (Except.ok res, log2))
    (n : String) (o : Resource) (hov : ov.Lookup n = some o)
    (hlog : ∀ passed, Effect.getCommonOutputs passed n ∉ log) :
    ∀ passed, Effect.getCommonOutputs passed n ∉ log2 := by
  induction inputs generalizing rs log with
  | nil =>
    simp only [computeResourcesLoop, Prod.mk.injEq] at h
    rw [← h.2]
    exact hlog
  | cons input rest ih =>
    obtain ⟨rs1, log1, heq, hstep⟩ := computeResourcesLoop_cons b ov input rest rs log res log2 h
    have hrest := computeResourcesLoop_rest b ov input rest rs log res log2 rs1 log1 h heq
    refine ih rs1 log1 hrest ?_
    rcases hstep with ⟨_, _, _, hlog1⟩ | ⟨_, _, _, _, hlog1⟩ |
      ⟨hnone, r, passed, outputs, v, _, _, _, _, _, hlog1⟩
    · rw [hlog1]
      exact hlog
    · rw [hlog1]
      exact hlog
    · rw [hlog1]
      intro p hmem
      rw [List.mem_append] at hmem
      rcases hmem with hmem | hmem
      · exact hlog p hmem
      · simp only [List.mem_singleton, Effect.getCommonOutputs.injEq] at hmem
        rw [hmem.2, hnone] at hov
        exact absurd hov (by simp)

theorem computeResourcesLoop_override (b : builder) (ov : Resources)
    (inputs : List Input) (rs : Resources) (log : List Effect) (res : Resources)
    (log2 : List Effect)
    (h : computeResourcesLoop b ov inputs rs log = (Except.ok res, log2)) :
    ∀ input ∈ inputs, ∀ o, ov.Lookup input.Resource = some o →
      res.Lookup input.Resource = some o := by
  induction inputs generalizing rs log with
  | nil => intro input hin; simp at hin
  | cons a rest ih =>
    obtain ⟨rs1, log1, heq, hstep⟩ := computeResourcesLoop_cons b ov a rest rs log res log2 h
    have hrest := computeResourcesLoop_rest b ov a rest rs log res log2 rs1 log1 h heq
    intro input hin o ho
    rcases List.mem_cons.1 hin with hhead | htail
    · rw [hhead] at ho ⊢
      refine computeResourcesLoop_keeps_override b ov rest rs1 log1 res log2 hrest _ o ho ?_
      rcases hstep with ⟨o2, ho2, hrs1, _⟩ | ⟨hnone, _⟩ | ⟨hnone, _⟩
      · rw [ho] at ho2
        rw [hrs1, ← Option.some.inj ho2, ← Lookup_name ov _ o ho]
        exact Lookup_UpdateResource_self rs o
      · rw [hnone] at ho
        exact absurd ho (by simp)
      · rw [hnone] at ho
        exact absurd ho (by simp)
    · exact ih rs1 log1 hrest input htail o ho

/-- C13: whenever `computeResources` succeeds, each job input whose resource name has an
override is bound in the result to that override, whether or not the input declares a
`passed` constraint, and `GetCommonOutputs` is not called for that resource. -/
theorem override_bound (b : builder) (job : Job) (resourceOverrides res : Resources)
    (log : List Effect)
    (h : b.computeResources job resourceOverrides = (Except.ok res, log)) :
    ∀ input ∈ job.Inputs, ∀ o, resourceOverrides.Lookup input.Resource = some o →
      res.Lookup input.Resource = some o
        ∧ ∀ passed, Effect.getCommonOutputs passed input.Resource ∉ log := by
  intro input hin o ho
  exact ⟨computeResourcesLoop_override b resourceOverrides job.Inputs b.resources [] res log h
      input hin o ho,
    computeResourcesLoop_no_query b resourceOverrides job.Inputs b.resources [] res log h
      input.Resource o ho (fun _ hm => by simp at hm)⟩

/-- Witness for C13: with an override of R, the input R of scenario S3 (which declares
`passed: [A, B]`) is bound to the override and the storage is not queried. -/
theorem override_bound_S3 :
    builderS3.computeResources jobS3 [overrideR]
      = (Except.ok
          [overrideR,
           { Name := "Q", Type_ := "git", Source := "q0" },
           { Name := "foo", Type_ := "git", Source := "f0" },
           { Name := "foobar", Type_ := "git", Source := "fb0" }], []) ∧
    (Resources.Lookup
        [overrideR,
         { Name := "Q", Type_ := "git", Source := "q0" },
         { Name := "foo", Type_ := "git", Source := "f0" },
         { Name := "foobar", Type_ := "git", Source := "fb0" }] "R" = some overrideR
      ∧ ∀ passed, Effect.getCommonOutputs passed "R" ∉ ([] : List Effect)) :=
  ⟨by rfl,
   override_bound builderS3 jobS3 [overrideR] _ [] (by rfl)
     { Resource := "R", Passed := some ["A", "B"] } (by decide) overrideR (by decide)⟩

/-- A name is left as it is by the inputs that do not rebind it. -/
theorem computeResourcesLoop_frame (b : builder) (ov : Resources)
    (inputs : List Input) (rs : Resources) (log : List Effect) (res : Resources)
    (log2 : List Effect)
    (h : computeResourcesLoop b ov inputs rs log = (Except.ok res, log2))
    (n : String)
    (hfree : ∀ input ∈ inputs, input.Resource = n → ov.Lookup n = none ∧ input.Passed = none) :
    res.Lookup n = rs.Lookup n := by
  induction inputs generalizing rs log with
  | nil =>
    simp only [computeResourcesLoop, Prod.mk.injEq, Except.ok.injEq] at h
    rw [← h.1]
  | cons input rest ih =>
    obtain ⟨rs1, log1, heq, hstep⟩ := computeResourcesLoop_cons b ov input rest rs log res log2 h
    have hrest := computeResourcesLoop_rest b ov input rest rs log res log2 rs1 log1 h heq
    rw [ih rs1 log1 hrest (fun i hi => hfree i (List.mem_cons_of_mem _ hi))]
    have hhead := hfree input (List.mem_cons_self _ _)
    rcases hstep with ⟨o2, ho2, hrs1, _⟩ | ⟨_, _, _, hrs1, _⟩ |
      ⟨hnone, r, passed, outputs, v, hbase, hpassed, _, _, hrs1, _⟩
    · rw [hrs1]
      have hn : input.Resource ≠ n := by
        intro hn
        have := (hhead hn).1
        rw [← hn, ho2] at this
        exact absurd this (by simp)
      exact Lookup_UpdateResource_of_ne rs o2 n
        (by rw [Lookup_name ov _ o2 ho2]; exact Ne.symm hn)
    · rw [hrs1]
    · rw [hrs1]
      have hn : input.Resource ≠ n := by
        intro hn
        have := (hhead hn).2
        rw [hpassed] at this
        exact absurd this (by simp)
      exact Lookup_UpdateResource_of_ne rs _ n
        (by
          show n ≠ r.Name
          rw [Lookup_name b.resources _ r hbase]
          exact Ne.symm hn)

/-- C16: whenever `computeResources` succeeds, the resolved resources agree with the base
resources on every name that no job input with a matching override or a `passed`
constraint refers to: names referred to by outputs only or not at all, and inputs with
neither override nor `passed` constraint, keep their base resource; in particular an
override whose name no job input refers to has no effect on that name. -/
theorem base_kept (b : builder) (job : Job) (resourceOverrides res : Resources)
    (log : List Effect)
    (h : b.computeResources job resourceOverrides = (Except.ok res, log)) :
    (∀ name, (∀ input ∈ job.Inputs, input.Resource = name →
        resourceOverrides.Lookup name = none ∧ input.Passed = none) →
      res.Lookup name = b.resources.Lookup name) ∧
    (∀ o ∈ resourceOverrides, (∀ input ∈ job.Inputs, input.Resource ≠ o.Name) →
      res.Lookup o.Name = b.resources.Lookup o.Name) := by
  refine ⟨fun name hfree =>
      computeResourcesLoop_frame b resourceOverrides job.Inputs b.resources [] res log h name
        hfree,
    fun o _ hno =>
      computeResourcesLoop_frame b resourceOverrides job.Inputs b.resources [] res log h o.Name
        (fun input hin hname => absurd hname (hno input hin))⟩

/-- Witness for C16: scenario S3 with an override of foobar, which no input refers to; Q (an
input with neither override nor constraint), foo (an output) and foobar keep their base
resource. -/
theorem base_kept_S3 :
    builderS3.computeResources jobS3 [{ Name := "foobar", Type_ := "git", Source := "pinned" }]
      = (Except.ok
          [{ Name := "R", Type_ := "git", Source := "v1" },
           { Name := "Q", Type_ := "git", Source := "q0" },
           { Name := "foo", Type_ := "git", Source := "f0" },
           { Name := "foobar", Type_ := "git", Source := "fb0" }],
         [Effect.getCommonOutputs ["A", "B"] "R"]) ∧
    Resources.Lookup
        [{ Name := "R", Type_ := "git", Source := "v1" },
         { Name := "Q", Type_ := "git", Source := "q0" },
         { Name := "foo", Type_ := "git", Source := "f0" },
         { Name := "foobar", Type_ := "git", Source := "fb0" }] "Q"
      = builderS3.resources.Lookup "Q" :=
  ⟨by rfl,
   (base_kept builderS3 jobS3 [{ Name := "foobar", Type_ := "git", Source := "pinned" }] _ _
      (by rfl)).1 "Q" (by decide)⟩

/-- The pass for an input with a `passed` constraint and no override binds the last common
version, whatever inputs come before and after it. -/
theorem computeResourcesLoop_passed (b : builder) (ov : Resources) (pre post : List Input)
    (input : Input) (rs : Resources) (log : List Effect) (res : Resources)
    (log2 : List Effect) (passed : List String) (outputs : List Source) (v : Source)
    (h : computeResourcesLoop b ov (pre ++ input :: post) rs log = (Except.ok res, log2))
    (hov : ov.Lookup input.Resource = none) (hp : input.Passed = some passed)
    (hdb : b.world.GetCommonOutputs passed input.Resource = Except.ok outputs)
    (hlast : outputs.getLast? = some v) :
    ∃ r rs1 log1, b.resources.Lookup input.Resource = some r
      ∧ computeResourcesLoop b ov (pre ++ [input]) rs log = (Except.ok rs1, log1)
      ∧ rs1.Lookup input.Resource = some { Name := r.Name, Type_ := r.Type_, Source := v }
      ∧ computeResourcesLoop b ov post rs1 log1 = (Except.ok res, log2) := by
  induction pre generalizing rs log with
  | nil =>
    rw [List.nil_append] at h
    obtain ⟨rs1, log1, heq, hstep⟩ := computeResourcesLoop_cons b ov input post rs log res log2 h
    have hrest := computeResourcesLoop_rest b ov input post rs log res log2 rs1 log1 h heq
    rcases hstep with ⟨o2, ho2, _⟩ | ⟨_, _, hnone, _⟩ |
      ⟨_, r, passed2, outputs2, v2, hbase, hpassed2, hdb2, hlast2, hrs1, _⟩
    · rw [hov] at ho2
      exact absurd ho2 (by simp)
    · rw [hp] at hnone
      exact absurd hnone (by simp)
    · rw [hp] at hpassed2
      have hpe : passed2 = passed := (Option.some.inj hpassed2).symm
      rw [hpe, hdb] at hdb2
      have hoe : outputs2 = outputs := (Except.ok.inj hdb2).symm
      rw [hoe, hlast] at hlast2
      have hve : v2 = v := (Option.some.inj hlast2).symm
      refine ⟨r, rs1, log1, hbase, ?_, ?_, hrest⟩
      · rw [List.nil_append, heq []]
        rfl
      · rw [hrs1, hve, ← Lookup_name b.resources _ r hbase]
        exact Lookup_UpdateResource_self rs { r with Source := v }
  | cons a pre ih =>
    rw [List.cons_append] at h
    obtain ⟨rsa, loga, heq, _⟩ :=
      computeResourcesLoop_cons b ov a (pre ++ input :: post) rs log res log2 h
    have hrest := computeResourcesLoop_rest b ov a (pre ++ input :: post) rs log res log2
      rsa loga h heq
    obtain ⟨r, rs1, log1, hbase, hpre, hlook, hpost⟩ := ih rsa loga hrest
    exact ⟨r, rs1, log1, hbase, by rw [List.cons_append, heq (pre ++ [input])]; exact hpre,
      hlook, hpost⟩

/-- C15: for a job input without a matching override that declares a `passed` constraint
for which the storage returns a non-empty list of common versions, resolution (when it
succeeds) binds the resource to the last element of that list, with the name and type of
the base resource: the resources resolved up to and including this input hold that binding,
and so does the final result unless a later input of the job names the same resource with a
`passed` constraint of its own. -/
theorem passed_binds_last (b : builder) (job : Job) (resourceOverrides res : Resources)
    (log : List Effect) (pre post : List Input) (input : Input) (passed : List String)
    (outputs : List Source) (v : Source)
    (h : b.computeResources job resourceOverrides = (Except.ok res, log))
    (hsplit : job.Inputs = pre ++ input :: post)
    (hov : resourceOverrides.Lookup input.Resource = none)
    (hp : input.Passed = some passed)
    (hdb : b.world.GetCommonOutputs passed input.Resource = Except.ok outputs)
    (hlast : outputs.getLast? = some v) :
    ∃ r, b.resources.Lookup input.Resource = some r ∧
      (∃ res1 log1,
        b.computeResources { job with Inputs := pre ++ [input] } resourceOverrides
          = (Except.ok res1, log1)
        ∧ res1.Lookup input.Resource
          = some { Name := r.Name, Type_ := r.Type_, Source := v }) ∧
      ((∀ i ∈ post, i.Resource = input.Resource → i.Passed = none) →
        res.Lookup input.Resource = some { Name := r.Name, Type_ := r.Type_, Source := v }) := by
  unfold builder.computeResources at h
  rw [hsplit] at h
  obtain ⟨r, rs1, log1, hbase, hpre, hlook, hpost⟩ :=
    computeResourcesLoop_passed b resourceOverrides pre post input b.resources [] res log
      passed outputs v h hov hp hdb hlast
  refine ⟨r, hbase, ⟨rs1, log1, hpre, hlook⟩, fun hfree => ?_⟩
  rw [computeResourcesLoop_frame b resourceOverrides post rs1 log1 res log hpost input.Resource
    (fun i hi hname => ⟨hov, hfree i hi hname⟩)]
  exact hlook

/-- Witness for C15 (scenario S3): with the common versions `[v1]` the input R is bound to
`v1`; with `[v1, v2]` it is bound to `v2`. -/
theorem passed_binds_last_S3 :
    (∃ r, builderS3.resources.Lookup "R" = some r ∧
      (∃ res1 log1,
        builderS3.computeResources
            { jobS3 with Inputs := [] ++ [{ Resource := "R", Passed := some ["A", "B"] }] } []
          = (Except.ok res1, log1)
        ∧ res1.Lookup "R" = some { Name := r.Name, Type_ := r.Type_, Source := "v1" }) ∧
      ((∀ i ∈ [({ Resource := "Q", Passed := none } : Input)], i.Resource = "R" →
          i.Passed = none) →
        Resources.Lookup
            [{ Name := "R", Type_ := "git", Source := "v1" },
             { Name := "Q", Type_ := "git", Source := "q0" },
             { Name := "foo", Type_ := "git", Source := "f0" },
             { Name := "foobar", Type_ := "git", Source := "fb0" }] "R"
          = some { Name := r.Name, Type_ := r.Type_, Source := "v1" })) ∧
    (builderS3.computeResources jobS3b []).1
      = Except.ok
          [{ Name := "R", Type_ := "git", Source := "v2" },
           { Name := "Q", Type_ := "git", Source := "q0" },
           { Name := "foo", Type_ := "git", Source := "f0" },
           { Name := "foobar", Type_ := "git", Source := "fb0" }] :=
  ⟨passed_binds_last builderS3 jobS3 [] _ _ [] [{ Resource := "Q", Passed := none }]
      { Resource := "R", Passed := some ["A", "B"] } ["A", "B"] ["v1"] "v1"
      (by rfl) (by rfl) (by rfl) (by rfl) (by rfl) (by rfl),
   by rfl⟩

theorem inputError_ne_none_iff (b : builder) (ov : Resources) (input : Input) :
    inputError b ov input ≠ none ↔
      ov.Lookup input.Resource = none ∧
        (b.resources.Lookup input.Resource = none ∨
         ∃ passed, input.Passed = some passed ∧
           ((∃ e, b.world.GetCommonOutputs passed input.Resource = Except.error e)
            ∨ b.world.GetCommonOutputs passed input.Resource = Except.ok [])) := by
  unfold inputError
  cases hov : ov.Lookup input.Resource with
  | some o => simp
  | none =>
    cases hbase : b.resources.Lookup input.Resource with
    | none => simp
    | some r =>
      cases hpassed : input.Passed with
      | none => simp
      | some passed =>
        cases hdb : b.world.GetCommonOutputs passed input.Resource with
        | error e => simp [hdb]
        | ok outputs =>
          cases outputs with
          | nil => simp [hdb]
          | cons x t => simp [hdb]

/-- The loop fails with the error of the first input that has one, and succeeds when there
is none, whatever resources it has bound so far. -/
theorem computeResourcesLoop_result (b : builder) (ov : Resources) (inputs : List Input)
    (rs : Resources) (log : List Effect) :
    (∀ e, inputs.findSome? (inputError b ov) = some e →
      (computeResourcesLoop b ov inputs rs log).1 = Except.error e) ∧
    (inputs.findSome? (inputError b ov) = none →
      ∃ res, (computeResourcesLoop b ov inputs rs log).1 = Except.ok res) := by
  induction inputs generalizing rs log with
  | nil => simp [computeResourcesLoop]
  | cons input rest ih =>
    simp only [List.findSome?_cons, computeResourcesLoop, inputError]
    cases hov : ov.Lookup input.Resource with
    | some o => exact ih _ _
    | none =>
      cases hbase : b.resources.Lookup input.Resource with
      | none => simp
      | some r =>
        cases hpassed : input.Passed with
        | none => exact ih _ _
        | some passed =>
          cases hdb : b.world.GetCommonOutputs passed input.Resource with
          | error e => simp [hdb]
          | ok outputs =>
            simp only [hdb]
            by_cases hlen : outputs.length = 0
            · simp [hlen]
            · simp only [hlen, if_false, dif_neg hlen, not_false_eq_true]
              exact ih _ _

/-- C14: `computeResources` fails iff some job input without a matching override names a
resource absent from the base resources, or declares a `passed` constraint for which the
storage query fails or returns no version; the error returned is the one of the first such
input in job order (`inputError` gives the error of an input), and then no resources are
returned. -/
theorem resolution_fails_iff (b : builder) (job : Job) (resourceOverrides : Resources) :
    ((∃ e, (b.computeResources job resourceOverrides).1 = Except.error e) ↔
      ∃ input ∈ job.Inputs, resourceOverrides.Lookup input.Resource = none ∧
        (b.resources.Lookup input.Resource = none ∨
         ∃ passed, input.Passed = some passed ∧
           ((∃ e, b.world.GetCommonOutputs passed input.Resource = Except.error e)
            ∨ b.world.GetCommonOutputs passed input.Resource = Except.ok []))) ∧
    (∀ e, (b.computeResources job resourceOverrides).1 = Except.error e ↔
      job.Inputs.findSome? (inputError b resourceOverrides) = some e) ∧
    (∀ e, (b.computeResources job resourceOverrides).1 = Except.error e →
      ∀ res, (b.computeResources job resourceOverrides).1 ≠ Except.ok res) := by
  have hres := computeResourcesLoop_result b resourceOverrides job.Inputs b.resources []
  have herr : ∀ e, (b.computeResources job resourceOverrides).1 = Except.error e ↔
      job.Inputs.findSome? (inputError b resourceOverrides) = some e := by
    intro e
    constructor
    · intro he
      cases hf : job.Inputs.findSome? (inputError b resourceOverrides) with
      | none =>
        obtain ⟨res, hok⟩ := hres.2 hf
        rw [builder.computeResources, hok] at he
        exact absurd he (by simp)
      | some e2 =>
        have := hres.1 e2 hf
        rw [builder.computeResources, this] at he
        rw [Except.error.inj he]
    · exact hres.1 e
  refine ⟨?_, herr, fun e he res hok => ?_⟩
  · constructor
    · rintro ⟨e, he⟩
      obtain ⟨input, hin, hie⟩ := List.exists_of_findSome?_eq_some ((herr e).1 he)
      exact ⟨input, hin, (inputError_ne_none_iff b resourceOverrides input).1
        (by rw [hie]; simp)⟩
    · rintro ⟨input, hin, hcond⟩
      have hne := (inputError_ne_none_iff b resourceOverrides input).2 hcond
      cases hf : job.Inputs.findSome? (inputError b resourceOverrides) with
      | none => exact absurd (List.findSome?_eq_none_iff.1 hf input hin) hne
      | some e => exact ⟨e, (herr e).2 hf⟩
  · rw [he] at hok
    exact absurd hok (by simp)

/-- An instance of C14: in `jobUnsatisfied` the input Q is fine, no version of R has passed
job X, and the last input names an unknown resource; the error is the one of R. -/
theorem resolution_fails_first_input :
    (builderS3.computeResources jobUnsatisfied []).1
      = Except.error (BuildError.unsatisfiedInput "R" ["X"]) :=
  ((resolution_fails_iff builderS3 jobUnsatisfied []).2.1
    (BuildError.unsatisfiedInput "R" ["X"])).2 (by rfl)

/-- When the build configuration path is the resource name, a separator and a rest,
`inputFor` sets the `config_path` to the rest; type, source and destination path are taken
from the resource. -/
theorem inputFor_of_path_inside (job : Job) (resource : Resource) (rest : String)
    (h : job.BuildConfigPath = resource.Name ++ "/" ++ rest) :
    builder.inputFor job resource
      = some { Type_ := resource.Type_, Source := resource.Source,
               DestinationPath := resource.Name, ConfigPath := rest } := by
  have hdata : job.BuildConfigPath.data = resource.Name.data ++ ('/' :: rest.data) := by
    rw [h, String.data_append, String.data_append]
    simp
  have hpre : filepathHasPrefix job.BuildConfigPath resource.Name = true := by
    unfold filepathHasPrefix
    rw [hdata, List.isPrefixOf_iff_prefix]
    exact List.prefix_append _ _
  have hlen : resource.Name.length + 1 ≤ job.BuildConfigPath.length := by
    show resource.Name.data.length + 1 ≤ job.BuildConfigPath.data.length
    rw [hdata, List.length_append, List.length_cons]
    omega
  have hdrop : job.BuildConfigPath.data.drop (resource.Name.length + 1) = rest.data := by
    show job.BuildConfigPath.data.drop (resource.Name.data.length + 1) = rest.data
    rw [hdata, ← List.drop_drop, List.drop_left]
    rfl
  simp only [builder.inputFor, hpre, hlen, if_true, hdrop]

/-- When the resource name is not a prefix of the build configuration path, the
`config_path` is empty. -/
theorem inputFor_of_not_prefix (job : Job) (resource : Resource)
    (h : filepathHasPrefix job.BuildConfigPath resource.Name = false) :
    builder.inputFor job resource
      = some { Type_ := resource.Type_, Source := resource.Source,
               DestinationPath := resource.Name, ConfigPath := "" } := by
  simp [builder.inputFor, h]

/-- C17 (evaluation at the failing input): the job's build configuration is
`foobar/build.yml`. For the resource foobar the `config_path` is `build.yml`; for the
resource foo, whose name is a prefix of the path that does not end at a path boundary, the
`config_path` is not empty but `ar/build.yml`. -/
theorem config_path_ignores_path_boundary :
    builder.inputFor jobFoobar { Name := "foobar", Type_ := "git", Source := "fb0" }
      = some { Type_ := "git", Source := "fb0", DestinationPath := "foobar",
               ConfigPath := "build.yml" } ∧
    builder.inputFor jobFoobar resourceFoo
      = some { Type_ := "git", Source := "f0", DestinationPath := "foo",
               ConfigPath := "ar/build.yml" } ∧
    builder.computeInputs jobFoobar builderS3.resources
      = Res.ok
          [{ Type_ := "git", Source := "f0", DestinationPath := "foo",
             ConfigPath := "ar/build.yml" },
           { Type_ := "git", Source := "fb0", DestinationPath := "foobar",
             ConfigPath := "build.yml" }] := by
  refine ⟨by decide, by decide, by rfl⟩

/-- C18 (evaluation at the failing inputs): when the build configuration path equals the
resource name (`foo`, or both empty), the name is a prefix of the path and the index
`len(resource.Name)+1` lies beyond the end of the path: the slice expression panics, and so
does `Build`. -/
theorem inputFor_slice_out_of_range :
    filepathHasPrefix jobFooOnly.BuildConfigPath resourceFoo.Name = true ∧
    ¬ (resourceFoo.Name.length + 1 ≤ jobFooOnly.BuildConfigPath.length) ∧
    builder.inputFor jobFooOnly resourceFoo = none ∧
    builder.inputFor { jobFooOnly with BuildConfigPath := "" }
      { Name := "", Type_ := "git", Source := "f0" } = none ∧
    builderS3.Build jobFooOnly [] = (BuildResult.panic, []) := by
  refine ⟨by decide, by decide, by decide, by decide, by rfl⟩

theorem computeResourcesLoop_log (b : builder) (ov : Resources) (inputs : List Input)
    (rs : Resources) (log : List Effect)
    (hlog : ∀ ef ∈ log, ∃ passed resource, ef = Effect.getCommonOutputs passed resource) :
    ∀ ef ∈ (computeResourcesLoop b ov inputs rs log).2,
      ∃ passed resource, ef = Effect.getCommonOutputs passed resource := by
  induction inputs generalizing rs log with
  | nil => simpa [computeResourcesLoop] using hlog
  | cons input rest ih =>
    have hlog2 : ∀ passed, ∀ ef ∈ log ++ [Effect.getCommonOutputs passed input.Resource],
        ∃ p r, ef = Effect.getCommonOutputs p r := by
      intro passed ef hmem
      rcases List.mem_append.1 hmem with hm | hm
      · exact hlog ef hm
      · exact ⟨passed, input.Resource, by simpa using hm⟩
    simp only [computeResourcesLoop]
    cases hov : ov.Lookup input.Resource with
    | some o => exact ih _ _ hlog
    | none =>
      cases hbase : b.resources.Lookup input.Resource with
      | none => exact hlog
      | some r =>
        cases hpassed : input.Passed with
        | none => exact ih _ _ hlog
        | some passed =>
          cases hdb : b.world.GetCommonOutputs passed input.Resource with
          | error e =>
            simp only [hdb]
            exact hlog2 passed
          | ok outputs =>
            simp only [hdb]
            by_cases hlen : outputs.length = 0
            · simp only [dif_pos hlen]
              exact hlog2 passed
            · simp only [dif_neg hlen]
              exact ih _ _ (hlog2 passed)

/-- C19: if resolving the resources, computing the executor inputs or computing the executor
outputs fails with an error, `Build` returns that error with the zero build, and it has
called neither `db.CreateBuild` nor the executor (its only calls are the storage queries of
the resolution). -/
theorem build_setup_all_or_nothing (b : builder) (job : Job)
    (resourceOverrides : List Resource) (e : BuildError)
    (h : (b.computeResources job resourceOverrides).1 = Except.error e ∨
      ∃ res, (b.computeResources job resourceOverrides).1 = Except.ok res ∧
        (builder.computeInputs job res = Res.error e ∨
          ((∃ inputs, builder.computeInputs job res = Res.ok inputs)
            ∧ builder.computeOutputs job res = Except.error e))) :
    (b.Build job resourceOverrides).1 = BuildResult.returned Build.zero (some e) ∧
    (∀ name, Effect.createBuild name ∉ (b.Build job resourceOverrides).2) ∧
    (∀ inputs outputs, Effect.execute inputs outputs ∉ (b.Build job resourceOverrides).2) ∧
    (b.Build job resourceOverrides).2 = (b.computeResources job resourceOverrides).2 := by
  have hlog := computeResourcesLoop_log b resourceOverrides job.Inputs b.resources []
    (fun ef hm => by simp at hm)
  have hfinal : (b.Build job resourceOverrides).1 = BuildResult.returned Build.zero (some e) ∧
      (b.Build job resourceOverrides).2 = (b.computeResources job resourceOverrides).2 := by
    unfold builder.Build
    cases hcr : b.computeResources job resourceOverrides with
    | mk r log =>
      rw [hcr] at h
      rcases h with h | ⟨res, hres, h⟩
      · simp only at h
        subst h
        exact ⟨rfl, rfl⟩
      · simp only at hres
        subst hres
        rcases h with h | ⟨⟨inputs, hin⟩, hout⟩
        · simp only [h]
          exact ⟨trivial, trivial⟩
        · simp only [hin, hout]
          exact ⟨trivial, trivial⟩
  refine ⟨hfinal.1, fun name hm => ?_, fun inputs outputs hm => ?_, hfinal.2⟩
  · rw [hfinal.2] at hm
    obtain ⟨p, r, hp⟩ := hlog _ hm
    exact absurd hp (by simp)
  · rw [hfinal.2] at hm
    obtain ⟨p, r, hp⟩ := hlog _ hm
    exact absurd hp (by simp)

/-- Witness for C19: `jobUnsatisfied` fails in the resolution (no version of R passed job X),
`jobUnknownOutput` in the computation of the inputs (its output resource is unknown); in both
cases `Build` returns the error with the zero build and has only queried the storage. -/
theorem build_setup_all_or_nothing_S3 :
    builderS3.Build jobUnsatisfied []
      = (BuildResult.returned Build.zero (some (BuildError.unsatisfiedInput "R" ["X"])),
         [Effect.getCommonOutputs ["X"] "R"]) ∧
    (builderS3.Build jobUnknownOutput []).1
      = BuildResult.returned Build.zero (some (BuildError.unknownResource "nowhere")) ∧
    (∀ name, Effect.createBuild name ∉ (builderS3.Build jobUnknownOutput []).2) :=
  ⟨by rfl,
   (build_setup_all_or_nothing builderS3 jobUnknownOutput []
      (BuildError.unknownResource "nowhere")
      (Or.inr ⟨_, by rfl, Or.inl (by rfl)⟩)).1,
   (build_setup_all_or_nothing builderS3 jobUnknownOutput []
      (BuildError.unknownResource "nowhere")
      (Or.inr ⟨_, by rfl, Or.inl (by rfl)⟩)).2.1⟩

end Builder

end Atc
